import Mathlib

/-!
# Verification of the DRAM Row-Open Prefetch Scheduler

Shallow embedding of the scheduler found in
`inc/dram_prefetches_scheduler/dram_row_open_scheduler.h`,
`inc/dram_prefetches_scheduler/dram_row_open_data_structures.h` and
`inc/dram_prefetches_scheduler/dram_row_open_stats.h`.

Modelling conventions:
* C++ `uint64_t` / `size_t` counters and cycle values are modelled as `Nat`
  (the verified claims never approach `2^64`, so wrap-around is irrelevant).
* C++ `float` score arithmetic is modelled exactly over `ℚ`; the claims
  settled about scores are algebraic/structural (presence or absence of a
  clamping `min`, non-negativity, functional dependence) and survive the
  exact-arithmetic abstraction.
* `std::map` is modelled as a strictly-sorted association list, so that
  iteration order (ascending keys) is part of the model, exactly as the
  scheduler relies on it ("process ready groups in chronological order").
* The address-to-DRAM-coordinates mapping (`get_dram_channel` & friends in
  `dram_address_utils.h`) delegates to the external DRAM controller; the
  specification calls it the Address-Mapping Oracle and places it out of
  scope.  It is a parameter `oracle : Nat → DramCoordinates` here.
* `champsim::block_number` is ChampSim's 64-byte cache-block number,
  i.e. `addr / 64`.
-/

namespace DramOpen

/-! ## Generic strictly-sorted association list (model of `std::map`) -/

section SortedMap

variable {κ : Type} {ρ : Type} [DecidableEq κ]

/-- Lookup by key: `std::map::find`. -/
def mlookup (k : κ) : List (κ × ρ) → Option ρ
  | [] => none
  | (k', v) :: t => if k' = k then some v else mlookup k t

/-- Insert-or-assign keeping keys sorted by the strict order `ltb`:
`std::map::operator[]` followed by assignment. -/
def mupsert (ltb : κ → κ → Bool) (k : κ) (v : ρ) : List (κ × ρ) → List (κ × ρ)
  | [] => [(k, v)]
  | (k', v') :: t =>
    if ltb k k' then (k, v) :: (k', v') :: t
    else if k = k' then (k, v) :: t
    else (k', v') :: mupsert ltb k v t

/-- Erase a key: `std::map::erase`. -/
def merase (k : κ) : List (κ × ρ) → List (κ × ρ)
  | [] => []
  | (k', v') :: t => if k' = k then t else (k', v') :: merase k t

/-- Well-formedness: keys strictly ascending in `ltb` — the invariant of a
`std::map` snapshot. -/
def mwf (ltb : κ → κ → Bool) (l : List (κ × ρ)) : Prop :=
  (l.map Prod.fst).Pairwise (fun a b => ltb a b = true)

/-- Total request count over a map of containers: `Σ σ(v)` over the values. -/
def msizeBy (σ : ρ → Nat) (l : List (κ × ρ)) : Nat := (l.map fun p => σ p.2).sum

end SortedMap

/-- The `<` used for the cycle-keyed `std::map<cycle_t, ReadyGroup>`. -/
def natLtb (a b : Nat) : Bool := decide (a < b)

/-! ## Data structures (`dram_row_open_data_structures.h`) -/

/-- `DramCoordinates`: (channel, rank, bank, row), the key of a ready group's
row map. -/
structure DramCoordinates where
  channel : Nat
  rank : Nat
  bank : Nat
  row : Nat
deriving DecidableEq, Repr

/-- `DramCoordinates::operator<`: lexicographic on (channel, rank, bank, row). -/
def DramCoordinates.ltb (a b : DramCoordinates) : Bool :=
  if a.channel ≠ b.channel then decide (a.channel < b.channel)
  else if a.rank ≠ b.rank then decide (a.rank < b.rank)
  else if a.bank ≠ b.bank then decide (a.bank < b.bank)
  else decide (a.row < b.row)

/-- `DramRowOpenRequest`: address, confidence, metadata.  The source struct
also carries an `issue_cycle` field that the scheduler never reads or
writes; it is omitted. -/
structure DramRowOpenRequest where
  addr : Nat
  confidence : Nat
  metadata : Nat
deriving DecidableEq, Repr

/-- `champsim::block_number{addr}` — ChampSim's 64-byte cache block number. -/
def blockNumber (addr : Nat) : Nat := addr / 64

/-- `DramRowOpenRequest::operator==`: block-level equality of addresses. -/
def blockEq (a b : DramRowOpenRequest) : Prop := blockNumber a.addr = blockNumber b.addr

instance : DecidablePred fun p : DramRowOpenRequest × DramRowOpenRequest => blockEq p.1 p.2 :=
  fun _ => by unfold blockEq; infer_instance

instance (a b : DramRowOpenRequest) : Decidable (blockEq a b) := by
  unfold blockEq; infer_instance

/-- `DramRow`: the requests pending for one DRAM row, plus its cached
priority score. -/
structure DramRow where
  prefetch_requests : List DramRowOpenRequest
  priority_score : ℚ
deriving DecidableEq, Repr

namespace DramRow

def size (row : DramRow) : Nat := row.prefetch_requests.length

def isEmpty (row : DramRow) : Bool := row.prefetch_requests.isEmpty

/-- Sum of the members' confidences (the loop inside `calculate_score`). -/
def sumConf (l : List DramRowOpenRequest) : Nat := (l.map DramRowOpenRequest.confidence).sum

/-- `DramRow::calculate_score`: `density_weight * min(n/row_buffer_size, 1)
+ confidence_weight * ((Σ conf / n) / max_confidence)`.  Note: the density
term is clamped with `min(…, 1)`, the mean-confidence term is NOT clamped. -/
def calculate_score (row : DramRow) (density_weight confidence_weight : ℚ)
    (max_confidence row_buffer_size : Nat) : DramRow :=
  let n := row.prefetch_requests.length
  let density : ℚ := min ((n : ℚ) / (row_buffer_size : ℚ)) 1
  let avg_confidence : ℚ :=
    if row.prefetch_requests.isEmpty then 0
    else ((sumConf row.prefetch_requests : ℚ) / (n : ℚ)) / (max_confidence : ℚ)
  { row with priority_score := density_weight * density + confidence_weight * avg_confidence }

/-- The duplicate-scan loop of `DramRow::add_prefetch` on the raw request
list: stop at the first block-equal member (raising its confidence and
metadata when the incoming confidence is strictly higher) and report a
duplicate; otherwise append at the end and report a new request. -/
def addPfList : List DramRowOpenRequest → DramRowOpenRequest → Bool × List DramRowOpenRequest
  | [], req => (true, [req])
  | e :: t, req =>
    if blockEq e req then
      (false,
        (if e.confidence < req.confidence then
          { e with confidence := req.confidence, metadata := req.metadata }
        else e) :: t)
    else
      let r := addPfList t req
      (r.1, e :: r.2)

/-- `DramRow::add_prefetch`. Returns `(is_new_request, updated row)`. -/
def add_prefetch (row : DramRow) (req : DramRowOpenRequest) : Bool × DramRow :=
  let r := addPfList row.prefetch_requests req
  (r.1, { row with prefetch_requests := r.2 })

/-- Fold of `std::max_element` with comparator `a.confidence < b.confidence`:
keeps the first element of maximal confidence. -/
def maxConfAux (best : DramRowOpenRequest) : List DramRowOpenRequest → DramRowOpenRequest
  | [] => best
  | e :: t => maxConfAux (if best.confidence < e.confidence then e else best) t

/-- `DramRow::get_highest_confidence_prefetch`. -/
def get_highest_confidence_prefetch (row : DramRow) : Option DramRowOpenRequest :=
  match row.prefetch_requests with
  | [] => none
  | e :: t => some (maxConfAux e t)

end DramRow

/-! ## Statistics (`dram_row_open_stats.h`) -/

structure SchedulerStats where
  REQUESTS_ADDED : Nat := 0
  DUPLICATES_DETECTED : Nat := 0
  CONFIDENCE_UPDATES : Nat := 0
  DROPPED_FULL_QUEUE : Nat := 0
  PRUNED_EXPIRED : Nat := 0
  ISSUED_SUCCESS : Nat := 0
  ISSUE_FAILURES : Nat := 0
  TOTAL_DELAY_CYCLES : Nat := 0
deriving DecidableEq, Repr

/-- `SchedulerStats::reset`. -/
def SchedulerStats.reset (_ : SchedulerStats) : SchedulerStats := {}

/-! ## Ready groups -/

/-- `ReadyGroup`: map from DRAM coordinates to row buckets, for the requests
that become ready at one cycle. -/
structure ReadyGroup where
  ready_rows : List (DramCoordinates × DramRow)
deriving DecidableEq, Repr

namespace ReadyGroup

/-- `ReadyGroup::size`: total number of requests over all rows. -/
def size (g : ReadyGroup) : Nat := (g.ready_rows.map fun p => p.2.size).sum

/-- `ReadyGroup::empty`. -/
def isEmpty (g : ReadyGroup) : Bool := g.ready_rows.isEmpty

/-- `ReadyGroup::add_prefetch`: route the request to the row bucket for its
coordinates (creating the bucket when absent), update the add/duplicate
counters, and recompute the bucket's score. -/
def add_prefetch (g : ReadyGroup) (oracle : Nat → DramCoordinates)
    (req : DramRowOpenRequest) (density_weight confidence_weight : ℚ)
    (max_confidence row_buffer_size : Nat) (stats : SchedulerStats) :
    Bool × ReadyGroup × SchedulerStats :=
  let coords := oracle req.addr
  match mlookup coords g.ready_rows with
  | some row =>
    let r := row.add_prefetch req
    let stats' :=
      if r.1 then { stats with REQUESTS_ADDED := stats.REQUESTS_ADDED + 1 }
      else { stats with DUPLICATES_DETECTED := stats.DUPLICATES_DETECTED + 1 }
    let row' := r.2.calculate_score density_weight confidence_weight max_confidence row_buffer_size
    (r.1, ⟨mupsert DramCoordinates.ltb coords row' g.ready_rows⟩, stats')
  | none =>
    let row := (DramRow.mk [req] 0).calculate_score density_weight confidence_weight
      max_confidence row_buffer_size
    (true, ⟨mupsert DramCoordinates.ltb coords row g.ready_rows⟩,
      { stats with REQUESTS_ADDED := stats.REQUESTS_ADDED + 1 })

end ReadyGroup

/-! ## Usage tracker (`DramUsageTracker` in `dram_row_open_scheduler.h`) -/

/-- Per-tick counters of channel/rank/bank usage.  The C++ unordered maps
never expose iteration order, so total functions are a faithful model
(absent key ↦ 0). -/
structure DramUsageTracker where
  channel_usage : Nat → Nat
  rank_usage : Nat → Nat
  bank_usage : Nat → Nat

namespace DramUsageTracker

def empty : DramUsageTracker := ⟨fun _ => 0, fun _ => 0, fun _ => 0⟩

def get_channel_usage (t : DramUsageTracker) (channel : Nat) : Nat := t.channel_usage channel

def get_rank_usage (t : DramUsageTracker) (rank : Nat) : Nat := t.rank_usage rank

def is_bank_in_use (t : DramUsageTracker) (bank : Nat) : Bool := decide (0 < t.bank_usage bank)

def record_usage (t : DramUsageTracker) (coords : DramCoordinates) : DramUsageTracker :=
  { channel_usage := fun x => if x = coords.channel then t.channel_usage x + 1 else t.channel_usage x
    rank_usage := fun x => if x = coords.rank then t.rank_usage x + 1 else t.rank_usage x
    bank_usage := fun x => if x = coords.bank then t.bank_usage x + 1 else t.bank_usage x }

end DramUsageTracker

/-! ## The scheduler (`DramRowOpenScheduler`) -/

/-- `RowCandidate`: a candidate row for issuing.  The C++ struct holds a raw
pointer into the ready group's row map that is set to `nullptr` once the
candidate has been tried; `Option` models the pointer. -/
structure RowCandidate where
  row : Option DramRow
  score : ℚ
  coords : DramCoordinates

structure DramRowOpenScheduler where
  max_queue_size : Nat
  time_slack : Nat
  density_weight : ℚ
  confidence_weight : ℚ
  max_confidence : Nat
  row_buffer_size : Nat
  ready_groups : List (Nat × ReadyGroup)
  m_stats : SchedulerStats

namespace DramRowOpenScheduler

/-- The constructor.  The C++ defaults are `density_weight = 0.6f`,
`confidence_weight = 0.4f`, `max_confidence = 100`, `row_buffer_size = 64`;
the float defaults are modelled as the exact rationals 3/5 and 2/5. -/
def mk' (max_queue_size_param slack_cycles : Nat)
    (density_weight_param : ℚ := 3/5) (confidence_weight_param : ℚ := 2/5)
    (max_confidence_param : Nat := 100) (row_buffer_size_param : Nat := 64) :
    DramRowOpenScheduler :=
  { max_queue_size := max_queue_size_param
    time_slack := slack_cycles
    density_weight := density_weight_param
    confidence_weight := confidence_weight_param
    max_confidence := max_confidence_param
    row_buffer_size := row_buffer_size_param
    ready_groups := []
    m_stats := {} }

/-- `total_prefetch_count`. -/
def total_prefetch_count (s : DramRowOpenScheduler) : Nat :=
  (s.ready_groups.map fun p => p.2.size).sum

/-- `size()`. -/
def size (s : DramRowOpenScheduler) : Nat := s.total_prefetch_count

/-- `capacity()`. -/
def capacity (s : DramRowOpenScheduler) : Nat := s.max_queue_size

/-- `clear()`. -/
def clear (s : DramRowOpenScheduler) : DramRowOpenScheduler := { s with ready_groups := [] }

/-- `reset_stats()`. -/
def reset_stats (s : DramRowOpenScheduler) : DramRowOpenScheduler :=
  { s with m_stats := s.m_stats.reset }

/-- `add_request(req, now, delay)`.  Returns `(accepted?, updated scheduler)`.
The oracle argument stands for the global address-mapping functions. -/
def add_request (oracle : Nat → DramCoordinates) (s : DramRowOpenScheduler)
    (req : DramRowOpenRequest) (now delay : Nat) : Bool × DramRowOpenScheduler :=
  if s.max_queue_size ≤ s.total_prefetch_count then
    (false, { s with m_stats :=
      { s.m_stats with DROPPED_FULL_QUEUE := s.m_stats.DROPPED_FULL_QUEUE + 1 } })
  else
    let ready_cycle := now + delay
    -- `ready_groups[ready_cycle] = ReadyGroup()` when absent, then
    -- `ready_groups[ready_cycle].add_prefetch(...)`.
    let g := (mlookup ready_cycle s.ready_groups).getD ⟨[]⟩
    let r := g.add_prefetch oracle req s.density_weight s.confidence_weight
      s.max_confidence s.row_buffer_size s.m_stats
    (r.1, { s with
      ready_groups := mupsert natLtb ready_cycle r.2.1 s.ready_groups
      m_stats := r.2.2 })

/-- `remove_expired_ready_groups`: drop every group with
`current_cycle > cycle + time_slack`, adding its request count to
`PRUNED_EXPIRED`.  (The C++ collects the expired cycles and then erases
them; on a map snapshot this is a partition.) -/
def remove_expired_ready_groups (s : DramRowOpenScheduler) (current_cycle : Nat) :
    DramRowOpenScheduler :=
  let part := s.ready_groups.partition fun p => decide (p.1 + s.time_slack < current_cycle)
  { s with
    ready_groups := part.2
    m_stats := { s.m_stats with
      PRUNED_EXPIRED := s.m_stats.PRUNED_EXPIRED + (part.1.map fun p => p.2.size).sum } }

/-- `find_best_candidate` accumulator walk: scan the candidate list left to
right keeping `(best_index, min_channel_usage, min_rank_usage)`; `none`
models the `-1` / `UINT_MAX` sentinels. -/
def findBestAux (tracker : DramUsageTracker) :
    List RowCandidate → Nat → Option (Nat × Nat × Nat) → Option (Nat × Nat × Nat)
  | [], _, best => best
  | c :: rest, i, best =>
    match c.row with
    | none => findBestAux tracker rest (i + 1) best
    | some row =>
      if row.prefetch_requests.isEmpty then findBestAux tracker rest (i + 1) best
      else if tracker.is_bank_in_use c.coords.bank then findBestAux tracker rest (i + 1) best
      else
        let channel_count := tracker.get_channel_usage c.coords.channel
        let rank_count := tracker.get_rank_usage c.coords.rank
        let is_better : Bool :=
          match best with
          | none => true
          | some (_, mc, mr) => decide (channel_count < mc) ||
              (decide (channel_count = mc) && decide (rank_count < mr))
        if is_better then findBestAux tracker rest (i + 1) (some (i, channel_count, rank_count))
        else findBestAux tracker rest (i + 1) best

/-- `find_best_candidate`: index of the selected candidate, `none` for `-1`. -/
def find_best_candidate (candidates : List RowCandidate) (tracker : DramUsageTracker) :
    Option Nat :=
  (findBestAux tracker candidates 0 none).map fun x => x.1

/-- Stable insertion into a score-descending list (comparator
`RowCandidate::operator<`, i.e. `a.score > b.score`).  `std::sort` below the
16-element introsort threshold is exactly an insertion sort, which is stable;
all scenarios proved here involve fewer candidates. -/
def insertCand (c : RowCandidate) : List RowCandidate → List RowCandidate
  | [] => [c]
  | d :: t => if d.score < c.score then c :: d :: t else d :: insertCand c t

/-- Sort candidates by score, descending and stable: insert each element in
turn into the sorted prefix, landing after any equal-score elements. -/
def sortCands (l : List RowCandidate) : List RowCandidate :=
  l.foldl (fun acc c => insertCand c acc) []

/-- Candidate-list construction in `issue_from_ready_group`: one candidate
per non-empty row, in the row map's iteration order. -/
def candsOf (g : ReadyGroup) : List RowCandidate :=
  (g.ready_rows.filter fun p => !p.2.prefetch_requests.isEmpty).map fun p =>
    ⟨some p.2, p.2.priority_score, p.1⟩

/-- The `while (remaining > 0)` loop of `issue_from_ready_group`.  State:
candidates, usage tracker, `remaining`, accumulated `issued_count`,
`rows_to_remove`, statistics.  Every iteration nulls exactly one candidate
and `find_best_candidate` only returns non-null candidates, so
`candidates.length` steps of fuel make the recursion total without cutting
any reachable iteration short. -/
def issueLoop : Nat → List RowCandidate → DramUsageTracker → Nat → (DramRowOpenRequest → Bool) →
    Nat → Nat → Nat → List DramCoordinates → SchedulerStats →
    Nat × List DramCoordinates × SchedulerStats
  | 0, _, _, _, _, _, _, issued, toRemove, stats => (issued, toRemove, stats)
  | fuel + 1, candidates, tracker, remaining, try_issue, ready_cycle, current_cycle,
      issued, toRemove, stats =>
    if remaining = 0 then (issued, toRemove, stats)
    else
      match find_best_candidate candidates tracker with
      | none => (issued, toRemove, stats)
      | some best_index =>
        let c := candidates.getD best_index ⟨none, 0, ⟨0, 0, 0, 0⟩⟩
        let pf := match c.row with
          | some row => row.get_highest_confidence_prefetch
          | none => none
        match pf with
        | some p =>
          if try_issue p then
            issueLoop fuel (candidates.set best_index { c with row := none })
              (tracker.record_usage c.coords) (remaining - 1) try_issue ready_cycle current_cycle
              (issued + 1) (toRemove ++ [c.coords])
              { stats with TOTAL_DELAY_CYCLES := stats.TOTAL_DELAY_CYCLES +
                  (if current_cycle < ready_cycle then ready_cycle - current_cycle else 0) }
          else
            issueLoop fuel (candidates.set best_index { c with row := none })
              tracker remaining try_issue ready_cycle current_cycle
              issued toRemove
              { stats with ISSUE_FAILURES := stats.ISSUE_FAILURES + 1 }
        | none =>
          -- `if (pf && try_issue(*pf))` falls to the failure branch when `pf`
          -- is null (unreachable: candidate rows are non-empty).
          issueLoop fuel (candidates.set best_index { c with row := none })
            tracker remaining try_issue ready_cycle current_cycle
            issued toRemove
            { stats with ISSUE_FAILURES := stats.ISSUE_FAILURES + 1 }

/-- `issue_from_ready_group` before the final row removal: returns
`(issued_count, rows_to_remove, stats)`. -/
def issueFromReadyGroupCore (g : ReadyGroup) (ready_cycle current_cycle max_to_issue : Nat)
    (try_issue : DramRowOpenRequest → Bool) (stats : SchedulerStats) :
    Nat × List DramCoordinates × SchedulerStats :=
  let candidates := sortCands (candsOf g)
  let remaining := min max_to_issue candidates.length
  issueLoop candidates.length candidates DramUsageTracker.empty remaining try_issue
    ready_cycle current_cycle 0 [] stats

/-- `issue_from_ready_group`: run the loop, then erase the issued rows. -/
def issue_from_ready_group (g : ReadyGroup) (ready_cycle current_cycle max_to_issue : Nat)
    (try_issue : DramRowOpenRequest → Bool) (stats : SchedulerStats) :
    Nat × ReadyGroup × SchedulerStats :=
  let r := issueFromReadyGroupCore g ready_cycle current_cycle max_to_issue try_issue stats
  (r.1, ⟨r.2.1.foldl (fun rows c => merase c rows) g.ready_rows⟩, r.2.2)

/-- The group-iteration loop of `issue_prefetches`: groups in ascending ready
cycle; skip groups not yet ready; drop groups found or left empty; stop once
`issued_count ≥ max_issue`.  Returns `(issued_count, remaining groups, stats)`. -/
def issueGroups (current_cycle max_issue : Nat) (try_issue : DramRowOpenRequest → Bool) :
    List (Nat × ReadyGroup) → Nat → SchedulerStats →
    Nat × List (Nat × ReadyGroup) × SchedulerStats
  | [], issued, stats => (issued, [], stats)
  | (cycle, g) :: rest, issued, stats =>
    if current_cycle < cycle then
      let r := issueGroups current_cycle max_issue try_issue rest issued stats
      (r.1, (cycle, g) :: r.2.1, r.2.2)
    else if g.isEmpty then issueGroups current_cycle max_issue try_issue rest issued stats
    else
      let r := issue_from_ready_group g cycle current_cycle (max_issue - issued) try_issue stats
      let issued' := issued + r.1
      let kept : List (Nat × ReadyGroup) := if r.2.1.isEmpty then [] else [(cycle, r.2.1)]
      if max_issue ≤ issued' then (issued', kept ++ rest, r.2.2)
      else
        let r' := issueGroups current_cycle max_issue try_issue rest issued' r.2.2
        (r'.1, kept ++ r'.2.1, r'.2.2)

/-- `issue_prefetches`. -/
def issue_prefetches (s : DramRowOpenScheduler) (current_cycle max_issue : Nat)
    (try_issue : DramRowOpenRequest → Bool) : DramRowOpenScheduler :=
  if s.ready_groups.isEmpty || max_issue = 0 then s
  else
    let r := issueGroups current_cycle max_issue try_issue s.ready_groups 0 s.m_stats
    { s with
      ready_groups := r.2.1
      m_stats := { r.2.2 with ISSUED_SUCCESS := r.2.2.ISSUED_SUCCESS + r.1 } }

/-- `tick(now, max_issue, try_issue)`. -/
def tick (s : DramRowOpenScheduler) (now max_issue : Nat)
    (try_issue : DramRowOpenRequest → Bool) : DramRowOpenScheduler :=
  (s.remove_expired_ready_groups now).issue_prefetches now max_issue try_issue

end DramRowOpenScheduler

/-! ## Reachable scheduler states

One step per public operation (`add_request`, `tick`, `clear`,
`reset_stats`), from a freshly constructed scheduler, with a fixed
address-mapping oracle (the C++ mapping functions are process-wide and fixed
for a run). -/

inductive Reachable (oracle : Nat → DramCoordinates) : DramRowOpenScheduler → Prop
  | init (cap slack : Nat) (dw cw : ℚ) (cmax rbs : Nat) :
      Reachable oracle (DramRowOpenScheduler.mk' cap slack dw cw cmax rbs)
  | add {s} (req : DramRowOpenRequest) (now delay : Nat) :
      Reachable oracle s → Reachable oracle (s.add_request oracle req now delay).2
  | tick {s} (now max_issue : Nat) (sink : DramRowOpenRequest → Bool) :
      Reachable oracle s → Reachable oracle (s.tick now max_issue sink)
  | clear {s} : Reachable oracle s → Reachable oracle s.clear
  | reset {s} : Reachable oracle s → Reachable oracle s.reset_stats

/-- Reachable without `reset_stats`: the observation points of the running
counter identity (T5), which is stated "sum over the run". -/
inductive ReachableFromStart (oracle : Nat → DramCoordinates) : DramRowOpenScheduler → Prop
  | init (cap slack : Nat) (dw cw : ℚ) (cmax rbs : Nat) :
      ReachableFromStart oracle (DramRowOpenScheduler.mk' cap slack dw cw cmax rbs)
  | add {s} (req : DramRowOpenRequest) (now delay : Nat) :
      ReachableFromStart oracle s →
      ReachableFromStart oracle (s.add_request oracle req now delay).2
  | tick {s} (now max_issue : Nat) (sink : DramRowOpenRequest → Bool) :
      ReachableFromStart oracle s → ReachableFromStart oracle (s.tick now max_issue sink)
  | clear {s} : ReachableFromStart oracle s → ReachableFromStart oracle s.clear

/-- Structural well-formedness of the two `std::map` models: strictly
ascending keys. -/
def SchedWF (s : DramRowOpenScheduler) : Prop :=
  mwf natLtb s.ready_groups ∧ ∀ p ∈ s.ready_groups, mwf DramCoordinates.ltb p.2.ready_rows

/-! ## Concrete test fixture

A concrete address-mapping oracle (channel in address bits 12-13, rank in
14-15, bank in 16-19, row from bit 20 up; blocks of 64 bytes) and the
scheduler states used by the concrete scenarios. -/

namespace Scenario

def tOracle (a : Nat) : DramCoordinates :=
  ⟨a / 4096 % 4, a / 16384 % 4, a / 65536 % 16, a / 1048576⟩

/-- Build an address with the given channel/rank/bank/row and block index. -/
def mkAddr (ch rk bk row blk : Nat) : Nat :=
  row * 1048576 + bk * 65536 + rk * 16384 + ch * 4096 + blk * 64

open DramRowOpenScheduler

/-- Two requests on bank 3, in two different ready groups (cycles 0 and 1). -/
def twoGroupsSameBank : DramRowOpenScheduler :=
  (add_request tOracle ((add_request tOracle (mk' 8 5) ⟨mkAddr 0 0 3 1 0, 5, 0⟩ 0 0).2)
    ⟨mkAddr 0 0 3 2 0, 5, 0⟩ 0 1).2

/-- Two rows on bank 3 in the same ready group (cycle 0). -/
def oneGroupSameBank : DramRowOpenScheduler :=
  (add_request tOracle ((add_request tOracle (mk' 8 5) ⟨mkAddr 0 0 3 1 0, 5, 0⟩ 0 0).2)
    ⟨mkAddr 0 0 3 2 0, 5, 0⟩ 0 0).2

/-- Two block-distinct requests in the same row bucket (same DRAM row). -/
def oneRowTwoRequests : DramRowOpenScheduler :=
  (add_request tOracle ((add_request tOracle (mk' 8 5) ⟨mkAddr 0 0 3 1 0, 5, 0⟩ 0 0).2)
    ⟨mkAddr 0 0 3 1 1, 7, 0⟩ 0 0).2

/-- One request, ready at cycle 0, slack 10. -/
def oneRequestSlack10 : DramRowOpenScheduler :=
  (add_request tOracle (mk' 8 10) ⟨mkAddr 0 0 3 1 0, 5, 0⟩ 0 0).2

/-- One request with confidence 3, then a block-equal one with confidence 10
and metadata 9. -/
def dupAfterAdd : Bool × DramRowOpenScheduler :=
  add_request tOracle ((add_request tOracle (mk' 8 5) ⟨mkAddr 0 0 3 1 0, 3, 0⟩ 0 0).2)
    ⟨mkAddr 0 0 3 1 0, 10, 9⟩ 0 0

/-- One request, ready at cycle 0, slack 2 (for the expiry boundary). -/
def oneRequestSlack2 : DramRowOpenScheduler :=
  (add_request tOracle (mk' 8 2) ⟨mkAddr 0 0 3 1 0, 5, 0⟩ 0 0).2

/-- Four rows with equal scores on distinct banks: two on channel 0
(banks 1, 2) and two on channel 1 (banks 3, 4). -/
def fourRowsTwoChannels : DramRowOpenScheduler :=
  [(mkAddr 0 0 2 1 0, 5), (mkAddr 1 0 4 1 0, 5), (mkAddr 0 0 1 1 0, 5),
    (mkAddr 1 0 3 1 0, 5)].foldl
    (fun s p => (add_request tOracle s ⟨p.1, p.2, 0⟩ 0 0).2) (mk' 8 5)

/-- Equal-score rows on banks 5 and 3 (same channel, rank and DRAM row
index), inserted in the order bank 5 first, then bank 3. -/
def bank5ThenBank3 : DramRowOpenScheduler :=
  (add_request tOracle ((add_request tOracle (mk' 8 5) ⟨mkAddr 0 0 5 1 0, 5, 0⟩ 0 0).2)
    ⟨mkAddr 0 0 3 1 0, 5, 0⟩ 0 0).2

/-- One request with metadata, slack 5 (for the sink-refusal scenario). -/
def oneRequestMeta : DramRowOpenScheduler :=
  (add_request tOracle (mk' 8 5) ⟨mkAddr 0 0 3 1 0, 5, 4⟩ 0 0).2

/-- A single request with confidence 200 under `max_confidence = 100`
(weights 3/5 and 2/5, row buffer 64). -/
def overConfident : DramRowOpenScheduler :=
  (add_request tOracle (mk' 8 5 (3/5) (2/5) 100 64) ⟨mkAddr 0 0 3 1 0, 200, 0⟩ 0 0).2

end Scenario

/-! ## Auxiliary notions used by the statements and proofs -/

/-- Eligibility of a candidate inside `find_best_candidate`: still has its
row pointer, the row is non-empty, and its bank is not yet in use. -/
def eligB (tr : DramUsageTracker) (c : RowCandidate) : Bool :=
  match c.row with
  | none => false
  | some row => !row.prefetch_requests.isEmpty && !tr.is_bank_in_use c.coords.bank

/-- The balancing key of a candidate: (channel usage so far, rank usage so
far). -/
def keyOf (tr : DramUsageTracker) (c : RowCandidate) : Nat × Nat :=
  (tr.get_channel_usage c.coords.channel, tr.get_rank_usage c.coords.rank)

/-- Strict lexicographic order on balancing keys; `is_better` in
`find_best_candidate` is exactly `keyLt (key of candidate) (current best)`. -/
def keyLt (a b : Nat × Nat) : Prop := a.1 < b.1 ∨ (a.1 = b.1 ∧ a.2 < b.2)

/-- Number of candidates whose row pointer is still set. -/
def someCount (cands : List RowCandidate) : Nat :=
  (cands.filter fun c => c.row.isSome).length

/-- Correctness statement for the accumulator walk of `find_best_candidate`
over a suffix `l` that starts at global index `i`: the walk either keeps the
incoming accumulator (and nothing in `l` strictly beats it) or returns the
first position of `l` achieving the lexicographically least (channel usage,
rank usage) key, strictly beating the accumulator and every earlier eligible
candidate. -/
def FindSpec (tr : DramUsageTracker) (l : List RowCandidate) (i : Nat)
    (acc : Option (Nat × Nat × Nat)) : Prop :=
  (DramRowOpenScheduler.findBestAux tr l i acc = none →
    acc = none ∧ ∀ c ∈ l, eligB tr c = false)
  ∧ (∀ j mc mr, DramRowOpenScheduler.findBestAux tr l i acc = some (j, mc, mr) →
      (acc = some (j, mc, mr) ∧
        ∀ k c, l.get? k = some c → eligB tr c = true → ¬ keyLt (keyOf tr c) (mc, mr))
      ∨ (∃ k c, l.get? k = some c ∧ j = i + k ∧ eligB tr c = true ∧ (mc, mr) = keyOf tr c
          ∧ (∀ m d, m < k → l.get? m = some d → eligB tr d = true →
              keyLt (mc, mr) (keyOf tr d))
          ∧ (∀ m d, k < m → l.get? m = some d → eligB tr d = true →
              ¬ keyLt (keyOf tr d) (mc, mr))
          ∧ (∀ aj amc amr, acc = some (aj, amc, amr) → keyLt (mc, mr) (amc, amr))))

/-- Statistics fields never touched by the issue loop. -/
def StatsPres (a b : SchedulerStats) : Prop :=
  a.REQUESTS_ADDED = b.REQUESTS_ADDED ∧ a.DUPLICATES_DETECTED = b.DUPLICATES_DETECTED ∧
  a.CONFIDENCE_UPDATES = b.CONFIDENCE_UPDATES ∧ a.DROPPED_FULL_QUEUE = b.DROPPED_FULL_QUEUE ∧
  a.PRUNED_EXPIRED = b.PRUNED_EXPIRED ∧ a.ISSUED_SUCCESS = b.ISSUED_SUCCESS

/-- Number of non-empty rows in the ready groups that are ready at `now`
(the candidates a tick will attempt). -/
def readyRowCount (s : DramRowOpenScheduler) (now : Nat) : Nat :=
  ((s.ready_groups.filter fun p => !decide (now < p.1)).map fun p =>
    (p.2.ready_rows.filter fun q => !q.2.prefetch_requests.isEmpty).length).sum

/-- The scoring formula exactly as §4.3 of the specification words it, with
the mean-confidence term clamped to `[0, 1]` — for comparison against the
code's `DramRow.calculate_score`. -/
def specScoreClamped (density_weight confidence_weight : ℚ)
    (max_confidence row_buffer_size n sum_conf : Nat) : ℚ :=
  density_weight * min ((n : ℚ) / (row_buffer_size : ℚ)) 1 +
    confidence_weight *
      max 0 (min (((sum_conf : ℚ) / (n : ℚ)) / (max_confidence : ℚ)) 1)

/-- Two candidates with equal balancing keys under the fresh tracker, listed
with bank 5 before bank 3 (used to exercise the position tie-break of
`find_best_candidate`). -/
def pairSameKeyCands : List RowCandidate :=
  [⟨some ⟨[⟨Scenario.mkAddr 0 0 5 1 0, 5, 0⟩], 1⟩, 1, ⟨0, 0, 5, 1⟩⟩,
   ⟨some ⟨[⟨Scenario.mkAddr 0 0 3 1 0, 5, 0⟩], 1⟩, 1, ⟨0, 0, 3, 1⟩⟩]

/-! ## Comparator properties -/

theorem natLtb_irrefl (a : Nat) : natLtb a a = false := by simp [natLtb]

theorem natLtb_trans {a b c : Nat} (h1 : natLtb a b = true) (h2 : natLtb b c = true) :
    natLtb a c = true := by
  simp only [natLtb, decide_eq_true_eq] at *; omega

theorem natLtb_conn {a b : Nat} (hne : a ≠ b) (h : natLtb a b = false) : natLtb b a = true := by
  simp only [natLtb, decide_eq_true_eq, decide_eq_false_iff_not] at *; omega

theorem coordsLtb_iff (a b : DramCoordinates) :
    DramCoordinates.ltb a b = true ↔
      a.channel < b.channel ∨ (a.channel = b.channel ∧ (a.rank < b.rank ∨
        (a.rank = b.rank ∧ (a.bank < b.bank ∨ (a.bank = b.bank ∧ a.row < b.row))))) := by
  rw [DramCoordinates.ltb]
  split_ifs with h1 h2 h3 <;> simp_all

theorem coordsLtb_irrefl (a : DramCoordinates) : DramCoordinates.ltb a a = false := by
  rw [Bool.eq_false_iff]
  intro h
  rw [coordsLtb_iff] at h
  omega

theorem coordsLtb_trans {a b c : DramCoordinates} (h1 : DramCoordinates.ltb a b = true)
    (h2 : DramCoordinates.ltb b c = true) : DramCoordinates.ltb a c = true := by
  rw [coordsLtb_iff] at *
  omega

theorem coordsLtb_conn {a b : DramCoordinates} (hne : a ≠ b)
    (h : DramCoordinates.ltb a b = false) : DramCoordinates.ltb b a = true := by
  have h2 : ¬ DramCoordinates.ltb a b = true := by simp [h]
  rw [coordsLtb_iff] at h2
  rw [coordsLtb_iff]
  have h3 : ¬(a.channel = b.channel ∧ a.rank = b.rank ∧ a.bank = b.bank ∧ a.row = b.row) := by
    intro hc
    apply hne
    cases a; cases b
    simp only [DramCoordinates.mk.injEq]
    exact hc
  omega

/-! ## Generic sorted-map lemmas -/

section SortedMapLemmas

variable {κ : Type} {ρ : Type} [DecidableEq κ] {ltb : κ → κ → Bool}

theorem ne_true_eq_false {b : Bool} (h : ¬ b = true) : b = false := by
  cases hb : b with
  | false => rfl
  | true => exact absurd hb h

theorem mlookup_mupsert_self (k : κ) (v : ρ) (l : List (κ × ρ)) :
    mlookup k (mupsert ltb k v l) = some v := by
  induction l with
  | nil => simp [mupsert, mlookup]
  | cons p t ih =>
    obtain ⟨k', v'⟩ := p
    rw [mupsert]
    by_cases hlt : ltb k k' = true
    · rw [if_pos hlt, mlookup, if_pos rfl]
    · rw [if_neg hlt]
      by_cases heq : k = k'
      · rw [if_pos heq, mlookup, if_pos rfl]
      · rw [if_neg heq, mlookup, if_neg (fun h : k' = k => heq h.symm), ih]

theorem mlookup_mupsert_ne {k k' : κ} (hne : k' ≠ k) (v : ρ) (l : List (κ × ρ)) :
    mlookup k' (mupsert ltb k v l) = mlookup k' l := by
  have hkk : ¬ k = k' := fun h => hne h.symm
  induction l with
  | nil => simp [mupsert, mlookup, hkk]
  | cons p t ih =>
    obtain ⟨k'', v''⟩ := p
    rw [mupsert]
    by_cases hlt : ltb k k'' = true
    · rw [if_pos hlt, mlookup, if_neg hkk]
    · rw [if_neg hlt]
      by_cases heq : k = k''
      · subst heq
        rw [if_pos rfl, mlookup, if_neg hkk, mlookup, if_neg hkk]
      · rw [if_neg heq, mlookup, mlookup, ih]

theorem mlookup_some_mem_keys {k : κ} {v : ρ} {l : List (κ × ρ)}
    (h : mlookup k l = some v) : k ∈ l.map Prod.fst := by
  induction l with
  | nil => simp [mlookup] at h
  | cons p t ih =>
    obtain ⟨k', v'⟩ := p
    by_cases heq : k' = k
    · simp [heq]
    · rw [mlookup, if_neg heq] at h
      simp [ih h]

theorem mlookup_some_mem {k : κ} {v : ρ} {l : List (κ × ρ)}
    (h : mlookup k l = some v) : (k, v) ∈ l := by
  induction l with
  | nil => exact absurd h (by simp [mlookup])
  | cons p t ih =>
    obtain ⟨k', v'⟩ := p
    by_cases heq : k' = k
    · subst heq
      rw [mlookup, if_pos rfl] at h
      injection h with h; subst h
      exact List.mem_cons_self _ _
    · rw [mlookup, if_neg heq] at h
      exact List.mem_cons_of_mem _ (ih h)

theorem mupsert_mem_subset {k : κ} {v : ρ} {l : List (κ × ρ)} {p : κ × ρ}
    (hp : p ∈ mupsert ltb k v l) : p = (k, v) ∨ p ∈ l := by
  induction l with
  | nil => simp [mupsert] at hp; exact Or.inl hp
  | cons q t ih =>
    obtain ⟨k', v'⟩ := q
    rw [mupsert] at hp
    by_cases hlt : ltb k k' = true
    · rw [if_pos hlt] at hp
      rcases List.mem_cons.mp hp with h | h
      · exact Or.inl h
      · exact Or.inr h
    · rw [if_neg hlt] at hp
      by_cases heq : k = k'
      · rw [if_pos heq] at hp
        rcases List.mem_cons.mp hp with h | h
        · exact Or.inl h
        · exact Or.inr (List.mem_cons_of_mem _ h)
      · rw [if_neg heq] at hp
        rcases List.mem_cons.mp hp with h | h
        · exact Or.inr (h ▸ List.mem_cons_self _ _)
        · rcases ih h with h' | h'
          · exact Or.inl h'
          · exact Or.inr (List.mem_cons_of_mem _ h')

theorem mupsert_keys_subset {k : κ} {v : ρ} {l : List (κ × ρ)} {x : κ}
    (hx : x ∈ (mupsert ltb k v l).map Prod.fst) : x = k ∨ x ∈ l.map Prod.fst := by
  induction l with
  | nil => simp [mupsert] at hx; exact Or.inl hx
  | cons p t ih =>
    obtain ⟨k', v'⟩ := p
    rw [mupsert] at hx
    by_cases hlt : ltb k k' = true
    · rw [if_pos hlt] at hx
      rcases List.mem_cons.mp hx with h | h
      · exact Or.inl h
      · exact Or.inr h
    · rw [if_neg hlt] at hx
      by_cases heq : k = k'
      · rw [if_pos heq] at hx
        rcases List.mem_cons.mp hx with h | h
        · exact Or.inl h
        · exact Or.inr (List.mem_cons.mpr (Or.inr h))
      · rw [if_neg heq] at hx
        rcases List.mem_cons.mp hx with h | h
        · exact Or.inr (List.mem_cons.mpr (Or.inl h))
        · rcases ih h with h' | h'
          · exact Or.inl h'
          · exact Or.inr (List.mem_cons.mpr (Or.inr h'))

theorem ltb_asymm (hirr : ∀ a : κ, ltb a a = false)
    (htrans : ∀ a b c : κ, ltb a b = true → ltb b c = true → ltb a c = true)
    {a b : κ} (h : ltb a b = true) : ltb b a = false := by
  cases hb : ltb b a with
  | false => rfl
  | true =>
    have hfalse := htrans a b a h hb
    rw [hirr a] at hfalse
    exact absurd hfalse (by simp)

theorem mwf_keys_nodup (hirr : ∀ a : κ, ltb a a = false) {l : List (κ × ρ)}
    (h : mwf ltb l) : (l.map Prod.fst).Nodup := by
  refine h.imp ?_
  intro a b hab heq
  subst heq
  rw [hirr a] at hab
  exact absurd hab (by simp)

theorem mwf_mupsert (hirr : ∀ a : κ, ltb a a = false)
    (htrans : ∀ a b c : κ, ltb a b = true → ltb b c = true → ltb a c = true)
    (hconn : ∀ a b : κ, a ≠ b → ltb a b = false → ltb b a = true)
    {l : List (κ × ρ)} (hw : mwf ltb l) (k : κ) (v : ρ) :
    mwf ltb (mupsert ltb k v l) := by
  induction l with
  | nil => simp [mupsert, mwf]
  | cons p t ih =>
    obtain ⟨k', v'⟩ := p
    rw [mwf, List.map_cons, List.pairwise_cons] at hw
    obtain ⟨hk', ht⟩ := hw
    rw [mupsert]
    by_cases hlt : ltb k k' = true
    · rw [if_pos hlt, mwf, List.map_cons, List.pairwise_cons]
      constructor
      · intro x hx
        rw [List.map_cons, List.mem_cons] at hx
        rcases hx with h | h
        · subst h; exact hlt
        · exact htrans _ _ _ hlt (hk' x h)
      · rw [List.map_cons, List.pairwise_cons]
        exact ⟨hk', ht⟩
    · rw [if_neg hlt]
      by_cases heq : k = k'
      · subst heq
        rw [if_pos rfl, mwf, List.map_cons, List.pairwise_cons]
        exact ⟨hk', ht⟩
      · rw [if_neg heq, mwf, List.map_cons, List.pairwise_cons]
        constructor
        · intro x hx
          rcases mupsert_keys_subset hx with h | h
          · subst h
            exact hconn _ _ heq (ne_true_eq_false hlt)
          · exact hk' x h
        · exact ih ht

theorem msize_mupsert_none (σ : ρ → Nat) {k : κ} (v : ρ) {l : List (κ × ρ)}
    (h : mlookup k l = none) :
    msizeBy σ (mupsert ltb k v l) = msizeBy σ l + σ v := by
  induction l with
  | nil => simp [mupsert, msizeBy]
  | cons p t ih =>
    obtain ⟨k', v'⟩ := p
    have hne : ¬ k' = k := by
      intro he
      rw [mlookup, if_pos he] at h
      exact Option.noConfusion h
    rw [mlookup, if_neg hne] at h
    rw [mupsert]
    by_cases hlt : ltb k k' = true
    · rw [if_pos hlt]
      simp only [msizeBy, List.map_cons, List.sum_cons]
      omega
    · rw [if_neg hlt, if_neg (fun he : k = k' => hne he.symm)]
      simp only [msizeBy, List.map_cons, List.sum_cons] at *
      rw [ih h]
      omega

theorem msize_mupsert_some (σ : ρ → Nat)
    (hirr : ∀ a : κ, ltb a a = false)
    (htrans : ∀ a b c : κ, ltb a b = true → ltb b c = true → ltb a c = true)
    {k : κ} (v : ρ) {l : List (κ × ρ)} {r : ρ}
    (hwf : mwf ltb l) (h : mlookup k l = some r) :
    msizeBy σ (mupsert ltb k v l) + σ r = msizeBy σ l + σ v := by
  induction l with
  | nil => exact absurd h (by simp [mlookup])
  | cons p t ih =>
    obtain ⟨k', v'⟩ := p
    rw [mwf, List.map_cons, List.pairwise_cons] at hwf
    obtain ⟨hk', htwf⟩ := hwf
    by_cases heq : k' = k
    · subst heq
      rw [mlookup, if_pos rfl] at h
      injection h with h; subst h
      rw [mupsert, if_neg (by rw [hirr]; exact fun hc => absurd hc (by simp)), if_pos rfl]
      simp only [msizeBy, List.map_cons, List.sum_cons]
      omega
    · rw [mlookup, if_neg heq] at h
      have hmem : k ∈ t.map Prod.fst := mlookup_some_mem_keys h
      have hk'k : ltb k' k = true := hk' k hmem
      have hlt : ltb k k' = false := ltb_asymm hirr htrans hk'k
      rw [mupsert, if_neg (by rw [hlt]; exact fun hc => absurd hc (by simp)),
        if_neg (fun he : k = k' => heq he.symm)]
      simp only [msizeBy, List.map_cons, List.sum_cons] at *
      have := ih htwf h
      omega

theorem merase_sublist (k : κ) (l : List (κ × ρ)) : (merase k l).Sublist l := by
  induction l with
  | nil => simp [merase]
  | cons p t ih =>
    obtain ⟨k', v'⟩ := p
    by_cases heq : k' = k
    · rw [merase, if_pos heq]
      exact (List.sublist_cons_self _ _)
    · rw [merase, if_neg heq]
      exact ih.cons₂ _

theorem mwf_merase {l : List (κ × ρ)} (h : mwf ltb l) (k : κ) : mwf ltb (merase k l) := by
  exact h.sublist ((merase_sublist k l).map Prod.fst)

theorem mlookup_merase_ne {k k' : κ} (hne : k' ≠ k) (l : List (κ × ρ)) :
    mlookup k' (merase k l) = mlookup k' l := by
  induction l with
  | nil => simp [merase]
  | cons p t ih =>
    obtain ⟨k'', v''⟩ := p
    by_cases heq : k'' = k
    · subst heq
      rw [merase, if_pos rfl, mlookup, if_neg (fun h : k'' = k' => hne h.symm)]
    · rw [merase, if_neg heq, mlookup, mlookup, ih]

theorem msize_merase (σ : ρ → Nat) {k : κ} {l : List (κ × ρ)} {r : ρ}
    (hnd : (l.map Prod.fst).Nodup) (h : mlookup k l = some r) :
    msizeBy σ (merase k l) + σ r = msizeBy σ l := by
  induction l with
  | nil => exact absurd h (by simp [mlookup])
  | cons p t ih =>
    obtain ⟨k', v'⟩ := p
    rw [List.map_cons, List.nodup_cons] at hnd
    by_cases heq : k' = k
    · subst heq
      rw [mlookup, if_pos rfl] at h
      injection h with h; subst h
      rw [merase, if_pos rfl]
      simp only [msizeBy, List.map_cons, List.sum_cons]
      omega
    · rw [mlookup, if_neg heq] at h
      rw [merase, if_neg heq]
      simp only [msizeBy, List.map_cons, List.sum_cons]
      have h2 := ih hnd.2 h
      simp only [msizeBy] at h2
      omega

end SortedMapLemmas

/-! ## Row-bucket lemmas -/

theorem addPfList_nodup (l : List DramRowOpenRequest) (req : DramRowOpenRequest)
    (h : ∀ e ∈ l, ¬ blockEq e req) :
    DramRow.addPfList l req = (true, l ++ [req]) := by
  induction l with
  | nil => simp [DramRow.addPfList]
  | cons e t ih =>
    rw [DramRow.addPfList, if_neg (h e (List.mem_cons_self e t))]
    rw [ih fun x hx => h x (List.mem_cons_of_mem e hx)]
    rfl

theorem addPfList_dup (l : List DramRowOpenRequest) (req : DramRowOpenRequest)
    (h : ∃ e ∈ l, blockEq e req) :
    ∃ pre e post, l = pre ++ e :: post ∧ (∀ x ∈ pre, ¬ blockEq x req) ∧ blockEq e req ∧
      DramRow.addPfList l req = (false, pre ++
        (if e.confidence < req.confidence then
          { e with confidence := req.confidence, metadata := req.metadata }
        else e) :: post) := by
  induction l with
  | nil => simp at h
  | cons e t ih =>
    by_cases he : blockEq e req
    · refine ⟨[], e, t, by simp, by simp, he, ?_⟩
      rw [DramRow.addPfList, if_pos he]
      simp
    · obtain ⟨e', he'⟩ := h
      have ht : ∃ x ∈ t, blockEq x req := by
        rcases List.mem_cons.mp he'.1 with h1 | h1
        · exact absurd (h1 ▸ he'.2) he
        · exact ⟨e', h1, he'.2⟩
      obtain ⟨pre, e'', post, hl, hpre, hdup, hres⟩ := ih ht
      refine ⟨e :: pre, e'', post, by rw [hl]; rfl, ?_, hdup, ?_⟩
      · intro x hx
        rcases List.mem_cons.mp hx with h1 | h1
        · exact h1 ▸ he
        · exact hpre x h1
      · rw [DramRow.addPfList, if_neg he, hres]
        rfl

theorem addPfList_length (l : List DramRowOpenRequest) (req : DramRowOpenRequest) :
    (DramRow.addPfList l req).2.length =
      l.length + (if (DramRow.addPfList l req).1 then 1 else 0) := by
  induction l with
  | nil => simp [DramRow.addPfList]
  | cons e t ih =>
    rw [DramRow.addPfList]
    by_cases he : blockEq e req
    · rw [if_pos he]
      simp
    · rw [if_neg he]
      simp only [List.length_cons, ih]
      split_ifs <;> omega

theorem calculate_score_requests (row : DramRow) (dw cw : ℚ) (cm rb : Nat) :
    (row.calculate_score dw cw cm rb).prefetch_requests = row.prefetch_requests := rfl

theorem calculate_score_size (row : DramRow) (dw cw : ℚ) (cm rb : Nat) :
    (row.calculate_score dw cw cm rb).size = row.size := rfl

theorem add_prefetch_size (row : DramRow) (req : DramRowOpenRequest) :
    (row.add_prefetch req).2.size =
      row.size + (if (row.add_prefetch req).1 then 1 else 0) := by
  simp only [DramRow.add_prefetch, DramRow.size]
  exact addPfList_length _ _

/-! ## Ready-group add lemmas -/

/-- Complete accounting of `ReadyGroup::add_prefetch`: the group grows by one
request exactly when the request was new, the statistics move by exactly one
of `REQUESTS_ADDED` / `DUPLICATES_DETECTED`, and well-formedness of the row
map is preserved. -/
theorem readyGroup_add_spec (g : ReadyGroup) (oracle : Nat → DramCoordinates)
    (req : DramRowOpenRequest) (dw cw : ℚ) (cm rb : Nat) (st : SchedulerStats)
    (hwf : mwf DramCoordinates.ltb g.ready_rows) :
    (let r := g.add_prefetch oracle req dw cw cm rb st
     r.2.1.size = g.size + (if r.1 then 1 else 0) ∧
     r.2.2 = (if r.1 then { st with REQUESTS_ADDED := st.REQUESTS_ADDED + 1 }
       else { st with DUPLICATES_DETECTED := st.DUPLICATES_DETECTED + 1 }) ∧
     mwf DramCoordinates.ltb r.2.1.ready_rows) := by
  cases hlook : mlookup (oracle req.addr) g.ready_rows with
  | some row =>
    simp only [ReadyGroup.add_prefetch, hlook]
    have hsize : ReadyGroup.size = fun g : ReadyGroup => msizeBy DramRow.size g.ready_rows := rfl
    constructor
    · rw [hsize]
      simp only
      have hup := msize_mupsert_some DramRow.size coordsLtb_irrefl
        (fun a b c h1 h2 => coordsLtb_trans h1 h2)
        ((row.add_prefetch req).2.calculate_score dw cw cm rb) hwf hlook
      rw [calculate_score_size] at hup
      rw [add_prefetch_size] at hup
      split_ifs at hup ⊢ with hnew
      · omega
      · omega
    · refine ⟨by simp, ?_⟩
      exact mwf_mupsert coordsLtb_irrefl (fun a b c h1 h2 => coordsLtb_trans h1 h2)
        (fun a b hne h => coordsLtb_conn hne h) hwf _ _
  | none =>
    simp only [ReadyGroup.add_prefetch, hlook]
    have hsize : ReadyGroup.size = fun g : ReadyGroup => msizeBy DramRow.size g.ready_rows := rfl
    refine ⟨?_, rfl, ?_⟩
    · rw [hsize]
      simp only [if_pos rfl]
      have hup := @msize_mupsert_none _ _ _ DramCoordinates.ltb DramRow.size _
        ((DramRow.mk [req] 0).calculate_score dw cw cm rb) _ hlook
      rw [hup, calculate_score_size]
      rfl
    · exact mwf_mupsert coordsLtb_irrefl (fun a b c h1 h2 => coordsLtb_trans h1 h2)
        (fun a b hne h => coordsLtb_conn hne h) hwf _ _

/-! ## `add_request` characterization -/

namespace DramRowOpenScheduler

theorem size_eq_msize (s : DramRowOpenScheduler) :
    s.size = msizeBy ReadyGroup.size s.ready_groups := rfl

theorem add_request_full (oracle : Nat → DramCoordinates) (s : DramRowOpenScheduler)
    (req : DramRowOpenRequest) (now delay : Nat)
    (h : s.max_queue_size ≤ s.total_prefetch_count) :
    s.add_request oracle req now delay = (false, { s with m_stats :=
      { s.m_stats with DROPPED_FULL_QUEUE := s.m_stats.DROPPED_FULL_QUEUE + 1 } }) := by
  rw [add_request, if_pos h]

theorem add_request_not_full (oracle : Nat → DramCoordinates) (s : DramRowOpenScheduler)
    (req : DramRowOpenRequest) (now delay : Nat) (hwf : SchedWF s)
    (h : ¬ s.max_queue_size ≤ s.total_prefetch_count) :
    (let r := s.add_request oracle req now delay
     r.2.size = s.size + (if r.1 then 1 else 0) ∧
     r.2.m_stats = (if r.1 then
        { s.m_stats with REQUESTS_ADDED := s.m_stats.REQUESTS_ADDED + 1 }
       else { s.m_stats with DUPLICATES_DETECTED := s.m_stats.DUPLICATES_DETECTED + 1 }) ∧
     SchedWF r.2) := by
  obtain ⟨hwfg, hwfr⟩ := hwf
  cases hlook : mlookup (now + delay) s.ready_groups with
  | some g =>
    have hgwf : mwf DramCoordinates.ltb g.ready_rows := hwfr _ (mlookup_some_mem hlook)
    have hspec := readyGroup_add_spec g oracle req s.density_weight s.confidence_weight
      s.max_confidence s.row_buffer_size s.m_stats hgwf
    simp only at hspec
    obtain ⟨hgsize, hgstats, hgwf'⟩ := hspec
    simp only [add_request, if_neg h, hlook, Option.getD_some]
    refine ⟨?_, hgstats, ?_, ?_⟩
    · rw [size_eq_msize, size_eq_msize]
      simp only
      have hup := msize_mupsert_some ReadyGroup.size natLtb_irrefl
        (fun a b c h1 h2 => natLtb_trans h1 h2)
        (g.add_prefetch oracle req s.density_weight s.confidence_weight
          s.max_confidence s.row_buffer_size s.m_stats).2.1 hwfg hlook
      rw [hgsize] at hup
      split_ifs at hup ⊢ <;> omega
    · exact mwf_mupsert natLtb_irrefl (fun a b c h1 h2 => natLtb_trans h1 h2)
        (fun a b hne h' => natLtb_conn hne h') hwfg _ _
    · intro p hp
      rcases mupsert_mem_subset hp with h' | h'
      · rw [h']
        exact hgwf'
      · exact hwfr p h'
  | none =>
    have hgwf : mwf DramCoordinates.ltb (ReadyGroup.mk []).ready_rows := by
      simp [mwf]
    have hspec := readyGroup_add_spec ⟨[]⟩ oracle req s.density_weight s.confidence_weight
      s.max_confidence s.row_buffer_size s.m_stats hgwf
    simp only at hspec
    obtain ⟨hgsize, hgstats, hgwf'⟩ := hspec
    simp only [add_request, if_neg h, hlook, Option.getD_none]
    refine ⟨?_, hgstats, ?_, ?_⟩
    · rw [size_eq_msize, size_eq_msize]
      simp only
      have hup := @msize_mupsert_none _ _ _ natLtb ReadyGroup.size _
        ((ReadyGroup.mk []).add_prefetch oracle req s.density_weight s.confidence_weight
          s.max_confidence s.row_buffer_size s.m_stats).2.1 _ hlook
      rw [hgsize] at hup
      have hz : (ReadyGroup.mk ([] : List (DramCoordinates × DramRow))).size = 0 := rfl
      rw [hz] at hup
      split_ifs at hup ⊢ <;> omega
    · exact mwf_mupsert natLtb_irrefl (fun a b c h1 h2 => natLtb_trans h1 h2)
        (fun a b hne h' => natLtb_conn hne h') hwfg _ _
    · intro p hp
      rcases mupsert_mem_subset hp with h' | h'
      · rw [h']
        exact hgwf'
      · exact hwfr p h'

end DramRowOpenScheduler

/-! ## `find_best_candidate` specification -/

theorem keyLt_trans {a b c : Nat × Nat} (h1 : keyLt a b) (h2 : keyLt b c) : keyLt a c := by
  obtain ⟨a1, a2⟩ := a; obtain ⟨b1, b2⟩ := b; obtain ⟨c1, c2⟩ := c
  simp only [keyLt] at *
  omega

theorem keyLt_of_lt_of_nlt {a b c : Nat × Nat} (h1 : keyLt a b) (h2 : ¬ keyLt c b) :
    keyLt a c := by
  obtain ⟨a1, a2⟩ := a; obtain ⟨b1, b2⟩ := b; obtain ⟨c1, c2⟩ := c
  simp only [keyLt, not_or, not_and, not_lt] at *
  omega

theorem keyLt_total (a b : Nat × Nat) : keyLt a b ∨ a = b ∨ keyLt b a := by
  obtain ⟨a1, a2⟩ := a; obtain ⟨b1, b2⟩ := b
  simp only [keyLt, Prod.mk.injEq]
  omega

theorem keyLtb_eq_true {ch rk amc amr : Nat} (h : keyLt (ch, rk) (amc, amr)) :
    (decide (ch < amc) || (decide (ch = amc) && decide (rk < amr))) = true := by
  simp only [keyLt] at h
  simp only [Bool.or_eq_true, Bool.and_eq_true, decide_eq_true_eq]
  exact h

theorem keyLtb_eq_false {ch rk amc amr : Nat} (h : ¬ keyLt (ch, rk) (amc, amr)) :
    (decide (ch < amc) || (decide (ch = amc) && decide (rk < amr))) = false := by
  refine ne_true_eq_false ?_
  intro hc
  apply h
  simp only [Bool.or_eq_true, Bool.and_eq_true, decide_eq_true_eq] at hc
  simpa only [keyLt] using hc

/-- Lift the find-spec over an ineligible head candidate. -/
theorem findSpec_skip {tr : DramUsageTracker} {c : RowCandidate} {rest : List RowCandidate}
    {i : Nat} {acc : Option (Nat × Nat × Nat)}
    (helig : eligB tr c = false)
    (hstep : DramRowOpenScheduler.findBestAux tr (c :: rest) i acc =
      DramRowOpenScheduler.findBestAux tr rest (i + 1) acc)
    (ih : FindSpec tr rest (i + 1) acc) : FindSpec tr (c :: rest) i acc := by
  constructor
  · intro h
    rw [hstep] at h
    obtain ⟨hacc, hall⟩ := ih.1 h
    refine ⟨hacc, ?_⟩
    intro d hd
    rcases List.mem_cons.mp hd with h1 | h1
    · rw [h1]; exact helig
    · exact hall d h1
  · intro j mc mr h
    rw [hstep] at h
    rcases ih.2 j mc mr h with ⟨hacc, hall⟩ |
      ⟨k, d, hget, hj, helig', hkey, hlo, hhi, haccc⟩
    · refine Or.inl ⟨hacc, ?_⟩
      intro k d hget helig'
      cases k with
      | zero =>
        rw [List.get?_cons_zero] at hget
        injection hget with hget
        rw [← hget, helig] at helig'
        exact absurd helig' (by simp)
      | succ k' =>
        rw [List.get?_cons_succ] at hget
        exact hall k' d hget helig'
    · refine Or.inr ⟨k + 1, d, by rwa [List.get?_cons_succ], by omega, helig', hkey,
        ?_, ?_, haccc⟩
      · intro m e hm hget helig''
        cases m with
        | zero =>
          rw [List.get?_cons_zero] at hget
          injection hget with hget
          rw [← hget, helig] at helig''
          exact absurd helig'' (by simp)
        | succ m' =>
          rw [List.get?_cons_succ] at hget
          exact hlo m' e (by omega) hget helig''
      · intro m e hm hget helig''
        cases m with
        | zero => omega
        | succ m' =>
          rw [List.get?_cons_succ] at hget
          exact hhi m' e (by omega) hget helig''

/-- Lift the find-spec over an eligible head that (strictly) improves on the
incoming accumulator and therefore replaces it. -/
theorem findSpec_better {tr : DramUsageTracker} {c : RowCandidate} {rest : List RowCandidate}
    {i : Nat} {acc : Option (Nat × Nat × Nat)}
    (helig : eligB tr c = true)
    (hstep : DramRowOpenScheduler.findBestAux tr (c :: rest) i acc =
      DramRowOpenScheduler.findBestAux tr rest (i + 1)
        (some (i, (keyOf tr c).1, (keyOf tr c).2)))
    (hacc : ∀ aj amc amr, acc = some (aj, amc, amr) → keyLt (keyOf tr c) (amc, amr))
    (ih : FindSpec tr rest (i + 1) (some (i, (keyOf tr c).1, (keyOf tr c).2))) :
    FindSpec tr (c :: rest) i acc := by
  constructor
  · intro h
    rw [hstep] at h
    obtain ⟨habs, _⟩ := ih.1 h
    exact absurd habs (by simp)
  · intro j mc mr h
    rw [hstep] at h
    rcases ih.2 j mc mr h with ⟨hacc', hall⟩ |
      ⟨k, d, hget, hj, helig', hkey, hlo, hhi, haccc⟩
    · injection hacc' with hacc'
      have hj : i = j := congrArg Prod.fst hacc'
      have hkeys : ((keyOf tr c).1, (keyOf tr c).2) = (mc, mr) := congrArg Prod.snd hacc'
      have hkeyc : (mc, mr) = keyOf tr c := hkeys.symm
      refine Or.inr ⟨0, c, List.get?_cons_zero, by omega, helig, hkeyc, ?_, ?_, ?_⟩
      · intro m d hm
        omega
      · intro m d hm hget helig''
        cases m with
        | zero => omega
        | succ m' =>
          rw [List.get?_cons_succ] at hget
          exact hall m' d hget helig''
      · intro aj amc amr ha
        rw [hkeyc]
        exact hacc aj amc amr ha
    · refine Or.inr ⟨k + 1, d, by rwa [List.get?_cons_succ], by omega, helig', hkey,
        ?_, ?_, ?_⟩
      · intro m e hm hget helig''
        cases m with
        | zero =>
          rw [List.get?_cons_zero] at hget
          injection hget with hget
          rw [← hget]
          exact haccc i (keyOf tr c).1 (keyOf tr c).2 rfl
        | succ m' =>
          rw [List.get?_cons_succ] at hget
          exact hlo m' e (by omega) hget helig''
      · intro m e hm hget helig''
        cases m with
        | zero => omega
        | succ m' =>
          rw [List.get?_cons_succ] at hget
          exact hhi m' e (by omega) hget helig''
      · intro aj amc amr ha
        exact keyLt_trans (haccc i (keyOf tr c).1 (keyOf tr c).2 rfl) (hacc aj amc amr ha)

/-- Lift the find-spec over an eligible head that does not improve on the
incoming accumulator, which is therefore kept. -/
theorem findSpec_nbetter {tr : DramUsageTracker} {c : RowCandidate} {rest : List RowCandidate}
    {i aj amc amr : Nat}
    (helig : eligB tr c = true)
    (hstep : DramRowOpenScheduler.findBestAux tr (c :: rest) i (some (aj, amc, amr)) =
      DramRowOpenScheduler.findBestAux tr rest (i + 1) (some (aj, amc, amr)))
    (hnb : ¬ keyLt (keyOf tr c) (amc, amr))
    (ih : FindSpec tr rest (i + 1) (some (aj, amc, amr))) :
    FindSpec tr (c :: rest) i (some (aj, amc, amr)) := by
  constructor
  · intro h
    rw [hstep] at h
    obtain ⟨habs, _⟩ := ih.1 h
    exact absurd habs (by simp)
  · intro j mc mr h
    rw [hstep] at h
    rcases ih.2 j mc mr h with ⟨hacc', hall⟩ |
      ⟨k, d, hget, hj, helig', hkey, hlo, hhi, haccc⟩
    · have he : amc = mc ∧ amr = mr := by
        injection hacc' with h1
        exact ⟨congrArg (fun x => x.2.1) h1, congrArg (fun x => x.2.2) h1⟩
      refine Or.inl ⟨hacc', ?_⟩
      intro k e hget helig''
      cases k with
      | zero =>
        rw [List.get?_cons_zero] at hget
        injection hget with hget
        rw [← hget, ← he.1, ← he.2]
        exact hnb
      | succ k' =>
        rw [List.get?_cons_succ] at hget
        exact hall k' e hget helig''
    · refine Or.inr ⟨k + 1, d, by rwa [List.get?_cons_succ], by omega, helig', hkey,
        ?_, ?_, haccc⟩
      · intro m e hm hget helig''
        cases m with
        | zero =>
          rw [List.get?_cons_zero] at hget
          injection hget with hget
          rw [← hget]
          exact keyLt_of_lt_of_nlt (haccc aj amc amr rfl) hnb
        | succ m' =>
          rw [List.get?_cons_succ] at hget
          exact hlo m' e (by omega) hget helig''
      · intro m e hm hget helig''
        cases m with
        | zero => omega
        | succ m' =>
          rw [List.get?_cons_succ] at hget
          exact hhi m' e (by omega) hget helig''

theorem findBestAux_spec (tr : DramUsageTracker) (l : List RowCandidate) :
    ∀ (i : Nat) (acc : Option (Nat × Nat × Nat)), FindSpec tr l i acc := by
  induction l with
  | nil =>
    intro i acc
    constructor
    · intro h
      rw [DramRowOpenScheduler.findBestAux] at h
      exact ⟨h, by simp⟩
    · intro j mc mr h
      rw [DramRowOpenScheduler.findBestAux] at h
      exact Or.inl ⟨h, by simp⟩
  | cons c rest ih =>
    intro i acc
    obtain ⟨crow, cscore, ccoords⟩ := c
    cases crow with
    | none =>
      refine findSpec_skip (by simp [eligB]) ?_ (ih (i + 1) acc)
      rw [DramRowOpenScheduler.findBestAux]
    | some row =>
      by_cases hemp : row.prefetch_requests.isEmpty = true
      · refine findSpec_skip (by simp [eligB, hemp]) ?_ (ih (i + 1) acc)
        rw [DramRowOpenScheduler.findBestAux]
        simp only [hemp, if_true]
      · by_cases hbank : tr.is_bank_in_use ccoords.bank = true
        · refine findSpec_skip (by simp [eligB, hemp, hbank]) ?_ (ih (i + 1) acc)
          rw [DramRowOpenScheduler.findBestAux]
          simp only [hemp, hbank, Bool.false_eq_true, if_false, if_true]
        · have helig : eligB tr ⟨some row, cscore, ccoords⟩ = true := by
            simp [eligB, hemp, hbank]
          have hempf : row.prefetch_requests.isEmpty = false := ne_true_eq_false hemp
          have hbankf : tr.is_bank_in_use ccoords.bank = false := ne_true_eq_false hbank
          cases acc with
          | none =>
            refine findSpec_better helig ?_ (by intro aj amc amr h; cases h) (ih (i + 1) _)
            rw [DramRowOpenScheduler.findBestAux]
            simp only [hempf, hbankf, Bool.false_eq_true, if_false, keyOf]
            rw [if_pos trivial]
          | some a =>
            obtain ⟨aj, amc, amr⟩ := a
            by_cases hb : keyLt (keyOf tr ⟨some row, cscore, ccoords⟩) (amc, amr)
            · refine findSpec_better helig ?_ ?_ (ih (i + 1) _)
              · rw [DramRowOpenScheduler.findBestAux]
                have hbt := @keyLtb_eq_true (tr.get_channel_usage ccoords.channel)
                  (tr.get_rank_usage ccoords.rank) amc amr hb
                simp only [hempf, hbankf, Bool.false_eq_true, if_false, keyOf,
                  DramUsageTracker.get_channel_usage, DramUsageTracker.get_rank_usage] at hbt ⊢
                rw [hbt]
                simp only [if_true]
              · intro aj' amc' amr' h
                injection h with h
                have h1 : amc' = amc := (congrArg (fun x => x.2.1) h).symm
                have h2 : amr' = amr := (congrArg (fun x => x.2.2) h).symm
                rw [h1, h2]
                exact hb
            · refine findSpec_nbetter helig ?_ hb (ih (i + 1) _)
              rw [DramRowOpenScheduler.findBestAux]
              have hbf := @keyLtb_eq_false (tr.get_channel_usage ccoords.channel)
                (tr.get_rank_usage ccoords.rank) amc amr hb
              simp only [hempf, hbankf, Bool.false_eq_true, if_false, keyOf,
                DramUsageTracker.get_channel_usage, DramUsageTracker.get_rank_usage] at hbf ⊢
              rw [hbf]
              simp

/-- Top-level specification of `find_best_candidate`: when it returns an
index, that candidate is eligible and minimises (channel usage, rank usage)
lexicographically among all eligible candidates, ties falling to the earliest
position in the (score-sorted) candidate list; when it returns none, no
candidate is eligible. -/
theorem find_best_candidate_spec (cands : List RowCandidate) (tr : DramUsageTracker) :
    (DramRowOpenScheduler.find_best_candidate cands tr = none →
      ∀ c ∈ cands, eligB tr c = false)
    ∧ ∀ j, DramRowOpenScheduler.find_best_candidate cands tr = some j →
        ∃ c, cands.get? j = some c ∧ eligB tr c = true ∧
          ∀ m d, cands.get? m = some d → eligB tr d = true → m ≠ j →
            keyLt (keyOf tr c) (keyOf tr d) ∨ (keyOf tr c = keyOf tr d ∧ j < m) := by
  have hspec := findBestAux_spec tr cands 0 none
  constructor
  · intro h
    rw [DramRowOpenScheduler.find_best_candidate] at h
    cases hf : DramRowOpenScheduler.findBestAux tr cands 0 none with
    | none => exact (hspec.1 hf).2
    | some x =>
      rw [hf] at h
      simp at h
  · intro j h
    rw [DramRowOpenScheduler.find_best_candidate] at h
    cases hf : DramRowOpenScheduler.findBestAux tr cands 0 none with
    | none =>
      rw [hf] at h
      simp at h
    | some x =>
      obtain ⟨j', mc, mr⟩ := x
      rw [hf] at h
      have hjj : j' = j := by simpa using h
      rcases hspec.2 j' mc mr hf with ⟨habs, _⟩ |
        ⟨k, c, hget, hj2, helig, hkey, hlo, hhi, _⟩
      · exact absurd habs (by simp)
      · have hkj : k = j := by omega
        subst hkj
        refine ⟨c, hget, helig, ?_⟩
        intro m d hget' helig' hne
        rcases Nat.lt_or_ge m k with hm | hm
        · left
          have h2 := hlo m d hm hget' helig'
          rw [hkey] at h2
          exact h2
        · have hmk : k < m := by omega
          have hnb := hhi m d hmk hget' helig'
          rw [hkey] at hnb
          rcases keyLt_total (keyOf tr c) (keyOf tr d) with h1 | h1 | h1
          · exact Or.inl h1
          · exact Or.inr ⟨h1, hmk⟩
          · exact absurd h1 hnb

/-! ## Small helper lemmas for the issue loop -/

theorem getD_of_get? {α : Type} {l : List α} {n : Nat} {c d : α}
    (h : l.get? n = some c) : l.getD n d = c := by
  rw [List.getD_eq_getElem?_getD, ← List.get?_eq_getElem?, h]
  rfl

theorem someCount_set_none {cands : List RowCandidate} {n : Nat} {c : RowCandidate}
    (hget : cands.get? n = some c) (hsome : c.row.isSome = true) (c' : RowCandidate)
    (hnone : c'.row = none) :
    someCount (cands.set n c') + 1 = someCount cands := by
  induction cands generalizing n with
  | nil => simp [List.get?] at hget
  | cons e t ih =>
    cases n with
    | zero =>
      rw [List.get?_cons_zero] at hget
      injection hget with hget
      subst hget
      simp only [List.set_cons_zero, someCount, List.filter, hnone, Option.isSome_none, hsome]
      rfl
    | succ n' =>
      rw [List.get?_cons_succ] at hget
      simp only [List.set_cons_succ, someCount, List.filter]
      cases e.row.isSome with
      | false =>
        simp only [someCount] at ih
        exact ih hget
      | true =>
        simp only [List.length_cons, someCount] at ih ⊢
        have := ih hget
        omega

theorem insertCand_perm (c : RowCandidate) (l : List RowCandidate) :
    (DramRowOpenScheduler.insertCand c l).Perm (c :: l) := by
  induction l with
  | nil => simp [DramRowOpenScheduler.insertCand]
  | cons d t ih =>
    rw [DramRowOpenScheduler.insertCand]
    by_cases h : d.score < c.score
    · rw [if_pos h]
    · rw [if_neg h]
      exact (ih.cons d).trans (List.Perm.swap c d t)

theorem sortCands_perm (l : List RowCandidate) :
    (DramRowOpenScheduler.sortCands l).Perm l := by
  have haux : ∀ (l acc : List RowCandidate),
      (l.foldl (fun acc c => DramRowOpenScheduler.insertCand c acc) acc).Perm (acc ++ l) := by
    intro l
    induction l with
    | nil => intro acc; simp
    | cons c t ih =>
      intro acc
      rw [List.foldl_cons]
      refine (ih (DramRowOpenScheduler.insertCand c acc)).trans ?_
      refine (((insertCand_perm c acc).append_right t).trans ?_)
      rw [List.cons_append]
      exact List.perm_middle.symm
  simpa using haux l []

theorem mlookup_of_mem_nodup {κ ρ : Type} [DecidableEq κ] {l : List (κ × ρ)} {k : κ} {v : ρ}
    (hmem : (k, v) ∈ l) (hnd : (l.map Prod.fst).Nodup) : mlookup k l = some v := by
  induction l with
  | nil => simp at hmem
  | cons p t ih =>
    obtain ⟨k', v'⟩ := p
    rw [List.map_cons, List.nodup_cons] at hnd
    rcases List.mem_cons.mp hmem with h | h
    · injection h with h1 h2
      subst h1; subst h2
      rw [mlookup, if_pos rfl]
    · have hk : k' ≠ k := by
        intro he
        subst he
        exact hnd.1 (List.mem_map.mpr ⟨(k', v), h, rfl⟩)
      rw [mlookup, if_neg hk]
      exact ih h hnd.2

theorem statsPres_refl (a : SchedulerStats) : StatsPres a a :=
  ⟨rfl, rfl, rfl, rfl, rfl, rfl⟩

theorem statsPres_trans {a b c : SchedulerStats} (h1 : StatsPres a b) (h2 : StatsPres b c) :
    StatsPres a c := by
  obtain ⟨x1, x2, x3, x4, x5, x6⟩ := h1
  obtain ⟨y1, y2, y3, y4, y5, y6⟩ := h2
  exact ⟨x1.trans y1, x2.trans y2, x3.trans y3, x4.trans y4, x5.trans y5, x6.trans y6⟩

theorem statsPres_failures (st : SchedulerStats) (x : Nat) :
    StatsPres { st with ISSUE_FAILURES := x } st :=
  ⟨rfl, rfl, rfl, rfl, rfl, rfl⟩

theorem statsPres_delay (st : SchedulerStats) (x : Nat) :
    StatsPres { st with TOTAL_DELAY_CYCLES := x } st :=
  ⟨rfl, rfl, rfl, rfl, rfl, rfl⟩

/-! ## Issue-loop invariants -/

/-- The issue loop touches only `ISSUE_FAILURES` and `TOTAL_DELAY_CYCLES`,
and leaves `TOTAL_DELAY_CYCLES` alone whenever the group being drained is
already ready (`ready_cycle ≤ current_cycle` — always true at the call
sites, which is the `TOTAL_DELAY_CYCLES` bug of C5). -/
theorem issueLoop_stats (fuel : Nat) :
    ∀ (cands : List RowCandidate) (tr : DramUsageTracker) (remaining : Nat)
      (sink : DramRowOpenRequest → Bool) (rc cc issued : Nat)
      (toRem : List DramCoordinates) (st : SchedulerStats),
    StatsPres
      (DramRowOpenScheduler.issueLoop fuel cands tr remaining sink rc cc issued toRem st).2.2 st
    ∧ (rc ≤ cc →
      (DramRowOpenScheduler.issueLoop fuel cands tr remaining sink rc cc issued
        toRem st).2.2.TOTAL_DELAY_CYCLES = st.TOTAL_DELAY_CYCLES) := by
  induction fuel with
  | zero =>
    intro cands tr remaining sink rc cc issued toRem st
    rw [DramRowOpenScheduler.issueLoop]
    exact ⟨statsPres_refl st, fun _ => rfl⟩
  | succ fuel ih =>
    intro cands tr remaining sink rc cc issued toRem st
    rw [DramRowOpenScheduler.issueLoop]
    by_cases hr : remaining = 0
    · rw [if_pos hr]
      exact ⟨statsPres_refl st, fun _ => rfl⟩
    · rw [if_neg hr]
      cases hfind : DramRowOpenScheduler.find_best_candidate cands tr with
      | none => exact ⟨statsPres_refl st, fun _ => rfl⟩
      | some best =>
        dsimp only
        cases hpf : (match (cands.getD best ⟨none, 0, ⟨0, 0, 0, 0⟩⟩).row with
          | some row => row.get_highest_confidence_prefetch
          | none => none) with
        | none =>
          refine ⟨statsPres_trans (ih _ _ _ _ _ _ _ _ _).1 (statsPres_failures st _),
            fun hle => (ih _ _ _ _ _ _ _ _ _).2 hle⟩
        | some p =>
          by_cases hsink : sink p = true
          · simp only [hsink]
            rw [if_pos trivial]
            refine ⟨statsPres_trans (ih _ _ _ _ _ _ _ _ _).1 (statsPres_delay st _), ?_⟩
            intro hle
            rw [(ih _ _ _ _ _ _ _ _ _).2 hle]
            simp [Nat.not_lt.mpr hle]
          · simp only [hsink]
            exact ⟨statsPres_trans (ih _ _ _ _ _ _ _ _ _).1 (statsPres_failures st _),
              fun hle => (ih _ _ _ _ _ _ _ _ _).2 hle⟩

theorem eligB_elim {tr : DramUsageTracker} {c : RowCandidate} (h : eligB tr c = true) :
    ∃ row, c.row = some row ∧ row.prefetch_requests.isEmpty = false ∧
      tr.is_bank_in_use c.coords.bank = false := by
  unfold eligB at h
  cases hcr : c.row with
  | none => rw [hcr] at h; exact absurd h (by simp)
  | some row =>
    rw [hcr] at h
    simp only [Bool.and_eq_true, Bool.not_eq_true'] at h
    exact ⟨row, rfl, h.1, h.2⟩

theorem bank_usage_zero_of_free {tr : DramUsageTracker} {b : Nat}
    (h : tr.is_bank_in_use b = false) : tr.bank_usage b = 0 := by
  unfold DramUsageTracker.is_bank_in_use at h
  simpa using h

theorem record_usage_bank_le (tr : DramUsageTracker) (coords : DramCoordinates) (b : Nat) :
    tr.bank_usage b ≤ (tr.record_usage coords).bank_usage b := by
  unfold DramUsageTracker.record_usage
  dsimp only
  split_ifs <;> omega

theorem record_usage_bank_self (tr : DramUsageTracker) (coords : DramCoordinates) :
    0 < (tr.record_usage coords).bank_usage coords.bank := by
  unfold DramUsageTracker.record_usage
  dsimp only
  rw [if_pos rfl]
  omega

/-- Loop invariant: the list of rows marked for removal (that is, the rows
successfully issued) has pairwise-distinct banks, every entry satisfies any
property `P` that holds of the coordinates of live candidates, and the
number of successful issues equals the growth of that list. -/
theorem issueLoop_toRemove (P : DramCoordinates → Prop) (fuel : Nat) :
    ∀ (cands : List RowCandidate) (tr : DramUsageTracker) (remaining : Nat)
      (sink : DramRowOpenRequest → Bool) (rc cc issued : Nat)
      (toRem : List DramCoordinates) (st : SchedulerStats),
    (∀ c ∈ cands, c.row.isSome = true → P c.coords) →
    (∀ x ∈ toRem, P x) →
    (∀ x ∈ toRem, 0 < tr.bank_usage x.bank) →
    toRem.Pairwise (fun a b => a.bank ≠ b.bank) →
    (let r := DramRowOpenScheduler.issueLoop fuel cands tr remaining sink rc cc issued toRem st
     (∀ x ∈ r.2.1, P x) ∧ r.2.1.Pairwise (fun a b => a.bank ≠ b.bank) ∧
       r.1 + toRem.length = issued + r.2.1.length) := by
  induction fuel with
  | zero =>
    intro cands tr remaining sink rc cc issued toRem st hP hPrev hBusy hNd
    rw [DramRowOpenScheduler.issueLoop]
    exact ⟨hPrev, hNd, rfl⟩
  | succ fuel ih =>
    intro cands tr remaining sink rc cc issued toRem st hP hPrev hBusy hNd
    rw [DramRowOpenScheduler.issueLoop]
    by_cases hr : remaining = 0
    · rw [if_pos hr]
      exact ⟨hPrev, hNd, rfl⟩
    · rw [if_neg hr]
      cases hfind : DramRowOpenScheduler.find_best_candidate cands tr with
      | none => exact ⟨hPrev, hNd, rfl⟩
      | some best =>
        obtain ⟨c0, hget0, helig0, _⟩ := (find_best_candidate_spec cands tr).2 best hfind
        have hc0 : cands.getD best ⟨none, 0, ⟨0, 0, 0, 0⟩⟩ = c0 := getD_of_get? hget0
        obtain ⟨row0, hrow0, hrowne, hbankfree⟩ := eligB_elim helig0
        have hc0mem : c0 ∈ cands := List.get?_mem hget0
        have hP' : ∀ c ∈ cands.set best { c0 with row := none },
            c.row.isSome = true → P c.coords := by
          intro c hc hs
          rcases List.mem_or_eq_of_mem_set hc with h1 | h1
          · exact hP c h1 hs
          · rw [h1] at hs
            exact absurd hs (by simp)
        dsimp only
        rw [hc0, hrow0]
        dsimp only
        cases hpf : row0.get_highest_confidence_prefetch with
        | none =>
          exact ih _ _ _ _ _ _ _ _ _ hP' hPrev hBusy hNd
        | some p =>
          by_cases hsink : sink p = true
          · simp only [hsink]
            rw [if_pos trivial]
            have hPrev' : ∀ x ∈ toRem ++ [c0.coords], P x := by
              intro x hx
              rcases List.mem_append.mp hx with h1 | h1
              · exact hPrev x h1
              · rw [List.mem_singleton.mp h1]
                exact hP c0 hc0mem (by rw [hrow0]; rfl)
            have hBusy' : ∀ x ∈ toRem ++ [c0.coords],
                0 < (tr.record_usage c0.coords).bank_usage x.bank := by
              intro x hx
              rcases List.mem_append.mp hx with h1 | h1
              · exact Nat.lt_of_lt_of_le (hBusy x h1) (record_usage_bank_le tr c0.coords x.bank)
              · rw [List.mem_singleton.mp h1]
                exact record_usage_bank_self tr c0.coords
            have hNd' : (toRem ++ [c0.coords]).Pairwise (fun a b => a.bank ≠ b.bank) := by
              rw [List.pairwise_append]
              refine ⟨hNd, by simp, ?_⟩
              intro x hx y hy
              rw [List.mem_singleton.mp hy]
              intro he
              have h0 : tr.bank_usage c0.coords.bank = 0 := bank_usage_zero_of_free hbankfree
              have h1 := hBusy x hx
              rw [he, h0] at h1
              exact absurd h1 (by omega)
            obtain ⟨ha, hb, hc⟩ := ih _ _ _ _ _ _ _ _ _ hP' hPrev' hBusy' hNd'
            refine ⟨ha, hb, ?_⟩
            rw [List.length_append, List.length_singleton] at hc
            omega
          · simp only [hsink]
            exact ih _ _ _ _ _ _ _ _ _ hP' hPrev hBusy hNd

theorem someCount_zero {cands : List RowCandidate}
    (h : ∀ c ∈ cands, c.row.isSome = false) : someCount cands = 0 := by
  unfold someCount
  rw [List.length_eq_zero]
  rw [List.filter_eq_nil]
  intro c hc
  simp [h c hc]

theorem someCount_pos {cands : List RowCandidate} {c : RowCandidate}
    (hc : c ∈ cands) (hs : c.row.isSome = true) : 0 < someCount cands := by
  unfold someCount
  rw [List.length_pos]
  intro hnil
  rw [List.filter_eq_nil] at hnil
  exact hnil c hc (by simp [hs])

theorem get_highest_ne_none {row : DramRow} (h : row.prefetch_requests.isEmpty = false) :
    ∃ p, row.get_highest_confidence_prefetch = some p := by
  rw [DramRow.get_highest_confidence_prefetch]
  cases hl : row.prefetch_requests with
  | nil => rw [hl] at h; exact absurd h (by simp)
  | cons e t => exact ⟨_, rfl⟩

/-- With a sink that always refuses, the loop attempts every live candidate
exactly once (no retry within the tick), issues nothing, removes nothing,
and counts exactly one `ISSUE_FAILURES` per live candidate. -/
theorem issueLoop_false_sink (fuel : Nat) :
    ∀ (cands : List RowCandidate) (tr : DramUsageTracker) (remaining : Nat)
      (rc cc issued : Nat) (toRem : List DramCoordinates) (st : SchedulerStats),
    (∀ c ∈ cands, ∀ row, c.row = some row → row.prefetch_requests.isEmpty = false) →
    (∀ c ∈ cands, c.row.isSome = true → tr.is_bank_in_use c.coords.bank = false) →
    someCount cands ≤ fuel →
    remaining ≠ 0 →
    DramRowOpenScheduler.issueLoop fuel cands tr remaining (fun _ => false) rc cc issued
        toRem st =
      (issued, toRem,
        { st with ISSUE_FAILURES := st.ISSUE_FAILURES + someCount cands }) := by
  induction fuel with
  | zero =>
    intro cands tr remaining rc cc issued toRem st hne hfree hfuel hrem
    have h0 : someCount cands = 0 := by omega
    rw [DramRowOpenScheduler.issueLoop, h0]
    simp
  | succ fuel ih =>
    intro cands tr remaining rc cc issued toRem st hne hfree hfuel hrem
    rw [DramRowOpenScheduler.issueLoop, if_neg hrem]
    cases hfind : DramRowOpenScheduler.find_best_candidate cands tr with
    | none =>
      have hall := (find_best_candidate_spec cands tr).1 hfind
      have h0 : someCount cands = 0 := by
        refine someCount_zero ?_
        intro c hc
        cases hcr : c.row with
        | none => simp
        | some row =>
          exfalso
          have he : eligB tr c = true := by
            unfold eligB
            rw [hcr]
            simp only [Bool.and_eq_true, Bool.not_eq_true']
            exact ⟨hne c hc row hcr, hfree c hc (by simp [hcr])⟩
          rw [hall c hc] at he
          exact absurd he (by simp)
      rw [h0]
      simp
    | some best =>
      obtain ⟨c0, hget0, helig0, _⟩ := (find_best_candidate_spec cands tr).2 best hfind
      have hc0 : cands.getD best ⟨none, 0, ⟨0, 0, 0, 0⟩⟩ = c0 := getD_of_get? hget0
      obtain ⟨row0, hrow0, hrowne, _⟩ := eligB_elim helig0
      have hc0mem : c0 ∈ cands := List.get?_mem hget0
      obtain ⟨p, hpf⟩ := get_highest_ne_none hrowne
      dsimp only
      rw [hc0, hrow0]
      dsimp only
      rw [hpf]
      simp only [Bool.false_eq_true, if_false]
      have hcount : someCount (cands.set best { c0 with row := none }) + 1 =
          someCount cands :=
        someCount_set_none hget0 (by simp [hrow0]) _ rfl
      have hne' : ∀ c ∈ cands.set best { c0 with row := none }, ∀ row,
          c.row = some row → row.prefetch_requests.isEmpty = false := by
        intro c hc row hcr
        rcases List.mem_or_eq_of_mem_set hc with h1 | h1
        · exact hne c h1 row hcr
        · rw [h1] at hcr
          exact absurd hcr (by simp)
      have hfree' : ∀ c ∈ cands.set best { c0 with row := none },
          c.row.isSome = true → tr.is_bank_in_use c.coords.bank = false := by
        intro c hc hs
        rcases List.mem_or_eq_of_mem_set hc with h1 | h1
        · exact hfree c h1 hs
        · rw [h1] at hs
          exact absurd hs (by simp)
      rw [ih _ _ _ _ _ _ _ _ hne' hfree' (by omega) hrem]
      have hpos : 0 < someCount cands := someCount_pos hc0mem (by simp [hrow0])
      simp only [Prod.mk.injEq, SchedulerStats.mk.injEq, true_and, and_true,
        eq_self_iff_true]
      omega

/-! ## `issue_from_ready_group` lemmas -/

theorem candsOf_mem {g : ReadyGroup} {c : RowCandidate}
    (hc : c ∈ DramRowOpenScheduler.candsOf g) :
    ∃ row, c.row = some row ∧ (c.coords, row) ∈ g.ready_rows ∧
      row.prefetch_requests.isEmpty = false := by
  unfold DramRowOpenScheduler.candsOf at hc
  obtain ⟨p, hp, hpc⟩ := List.mem_map.mp hc
  obtain ⟨hpm, hpf⟩ := List.mem_filter.mp hp
  refine ⟨p.2, ?_, ?_, ?_⟩
  · rw [← hpc]
  · rw [← hpc]
    exact hpm
  · simpa using hpf

theorem sortCands_mem {g : ReadyGroup} {c : RowCandidate}
    (hc : c ∈ DramRowOpenScheduler.sortCands (DramRowOpenScheduler.candsOf g)) :
    ∃ row, c.row = some row ∧ (c.coords, row) ∈ g.ready_rows ∧
      row.prefetch_requests.isEmpty = false :=
  candsOf_mem ((sortCands_perm _).mem_iff.mp hc)

theorem foldl_merase_wf {ltb : DramCoordinates → DramCoordinates → Bool}
    (toRem : List DramCoordinates) :
    ∀ (rows : List (DramCoordinates × DramRow)), mwf ltb rows →
    mwf ltb (toRem.foldl (fun rs c => merase c rs) rows) := by
  induction toRem with
  | nil => intro rows h; exact h
  | cons x xs ih =>
    intro rows h
    rw [List.foldl_cons]
    exact ih _ (mwf_merase h x)

theorem foldl_merase_size (toRem : List DramCoordinates) :
    ∀ (rows : List (DramCoordinates × DramRow)),
    (rows.map Prod.fst).Nodup →
    (∀ x ∈ toRem, ∃ row, mlookup x rows = some row ∧
      row.prefetch_requests.isEmpty = false) →
    toRem.Pairwise (fun a b => a ≠ b) →
    msizeBy DramRow.size (toRem.foldl (fun rs c => merase c rs) rows) + toRem.length ≤
      msizeBy DramRow.size rows := by
  induction toRem with
  | nil => intro rows _ _ _; simp
  | cons x xs ih =>
    intro rows hnd hgood hpnd
    rw [List.foldl_cons]
    obtain ⟨row, hlook, hne⟩ := hgood x (List.mem_cons_self x xs)
    have hsz : msizeBy DramRow.size (merase x rows) + row.size = msizeBy DramRow.size rows :=
      msize_merase DramRow.size hnd hlook
    have hrow1 : 1 ≤ row.size := by
      unfold DramRow.size
      cases hl : row.prefetch_requests with
      | nil => rw [hl] at hne; exact absurd hne (by simp)
      | cons e t => simp
    rw [List.pairwise_cons] at hpnd
    have hnd' : ((merase x rows).map Prod.fst).Nodup :=
      hnd.sublist ((merase_sublist x rows).map Prod.fst)
    have hgood' : ∀ y ∈ xs, ∃ row, mlookup y (merase x rows) = some row ∧
        row.prefetch_requests.isEmpty = false := by
      intro y hy
      obtain ⟨r, hr, hre⟩ := hgood y (List.mem_cons_of_mem x hy)
      refine ⟨r, ?_, hre⟩
      rw [mlookup_merase_ne (fun he => hpnd.1 y hy he.symm) rows]
      exact hr
    have := ih _ hnd' hgood' hpnd.2
    simp only [List.length_cons]
    omega

/-- The rows a single call to `issue_from_ready_group` successfully issues
(and removes) have pairwise-distinct banks: a bank is targeted at most once
per ready group per tick. -/
theorem issueFromReadyGroupCore_spec (g : ReadyGroup) (rc cc m : Nat)
    (sink : DramRowOpenRequest → Bool) (st : SchedulerStats) :
    (let r := DramRowOpenScheduler.issueFromReadyGroupCore g rc cc m sink st
     (∀ x ∈ r.2.1, ∃ row, (x, row) ∈ g.ready_rows ∧
        row.prefetch_requests.isEmpty = false) ∧
     r.2.1.Pairwise (fun a b => a.bank ≠ b.bank) ∧
     r.1 = r.2.1.length) := by
  have h := issueLoop_toRemove
    (fun coords => ∃ row, (coords, row) ∈ g.ready_rows ∧
      row.prefetch_requests.isEmpty = false)
    (DramRowOpenScheduler.sortCands (DramRowOpenScheduler.candsOf g)).length
    (DramRowOpenScheduler.sortCands (DramRowOpenScheduler.candsOf g))
    DramUsageTracker.empty
    (min m (DramRowOpenScheduler.sortCands (DramRowOpenScheduler.candsOf g)).length)
    sink rc cc 0 [] st
    (by
      intro c hc _
      obtain ⟨row, hcr, hmem, hne⟩ := sortCands_mem hc
      exact ⟨row, hmem, hne⟩)
    (by simp) (by simp) (by simp)
  simpa [DramRowOpenScheduler.issueFromReadyGroupCore] using h

theorem issue_from_ready_group_spec (g : ReadyGroup) (rc cc m : Nat)
    (sink : DramRowOpenRequest → Bool) (st : SchedulerStats)
    (hwf : mwf DramCoordinates.ltb g.ready_rows) :
    (let r := DramRowOpenScheduler.issue_from_ready_group g rc cc m sink st
     r.2.1.size + r.1 ≤ g.size ∧
     mwf DramCoordinates.ltb r.2.1.ready_rows ∧
     StatsPres r.2.2 st ∧
     (rc ≤ cc → r.2.2.TOTAL_DELAY_CYCLES = st.TOTAL_DELAY_CYCLES)) := by
  obtain ⟨hgood, hbanks, hcount⟩ := issueFromReadyGroupCore_spec g rc cc m sink st
  have hnd : (g.ready_rows.map Prod.fst).Nodup := mwf_keys_nodup coordsLtb_irrefl hwf
  have hstats := issueLoop_stats
    (DramRowOpenScheduler.sortCands (DramRowOpenScheduler.candsOf g)).length
    (DramRowOpenScheduler.sortCands (DramRowOpenScheduler.candsOf g))
    DramUsageTracker.empty
    (min m (DramRowOpenScheduler.sortCands (DramRowOpenScheduler.candsOf g)).length)
    sink rc cc 0 [] st
  refine ⟨?_, ?_, ?_, ?_⟩
  · have hsize := foldl_merase_size
      (DramRowOpenScheduler.issueFromReadyGroupCore g rc cc m sink st).2.1 g.ready_rows hnd
      (by
        intro x hx
        obtain ⟨row, hmem, hne⟩ := hgood x hx
        exact ⟨row, mlookup_of_mem_nodup hmem hnd, hne⟩)
      (hbanks.imp fun hab heq => hab (congrArg DramCoordinates.bank heq))
    rw [← hcount] at hsize
    exact hsize
  · exact foldl_merase_wf _ _ hwf
  · exact hstats.1
  · exact hstats.2

theorem cands_all_some {g : ReadyGroup} :
    ∀ c ∈ DramRowOpenScheduler.sortCands (DramRowOpenScheduler.candsOf g),
      c.row.isSome = true := by
  intro c hc
  obtain ⟨row, hcr, _, _⟩ := sortCands_mem hc
  simp [hcr]

theorem someCount_all_some {cands : List RowCandidate}
    (h : ∀ c ∈ cands, c.row.isSome = true) : someCount cands = cands.length := by
  unfold someCount
  rw [List.filter_length_eq_length.mpr h]

/-- A ready group drained with an always-false sink: nothing is issued, the
group is unchanged, and `ISSUE_FAILURES` grows by the number of non-empty
rows. -/
theorem issue_from_ready_group_false_sink (g : ReadyGroup) (rc cc m : Nat)
    (st : SchedulerStats) (hm : m ≠ 0) :
    DramRowOpenScheduler.issue_from_ready_group g rc cc m (fun _ => false) st =
      (0, g, { st with ISSUE_FAILURES := st.ISSUE_FAILURES +
        (g.ready_rows.filter fun q => !q.2.prefetch_requests.isEmpty).length }) := by
  have hlen : (DramRowOpenScheduler.sortCands (DramRowOpenScheduler.candsOf g)).length =
      (g.ready_rows.filter fun q => !q.2.prefetch_requests.isEmpty).length := by
    rw [(sortCands_perm _).length_eq]
    unfold DramRowOpenScheduler.candsOf
    rw [List.length_map]
  unfold DramRowOpenScheduler.issue_from_ready_group
  unfold DramRowOpenScheduler.issueFromReadyGroupCore
  by_cases hnil :
      DramRowOpenScheduler.sortCands (DramRowOpenScheduler.candsOf g) = []
  · rw [hnil]
    simp only [List.length_nil, Nat.min_zero]
    rw [DramRowOpenScheduler.issueLoop]
    rw [hnil] at hlen
    simp only [List.length_nil] at hlen
    rw [← hlen]
    simp
  · have hrem : min m (DramRowOpenScheduler.sortCands
        (DramRowOpenScheduler.candsOf g)).length ≠ 0 := by
      have : (DramRowOpenScheduler.sortCands (DramRowOpenScheduler.candsOf g)).length ≠ 0 :=
        fun h => hnil (List.length_eq_zero.mp h)
      omega
    rw [issueLoop_false_sink _ _ _ _ _ _ _ _ _
      (by
        intro c hc row hcr
        obtain ⟨row', hcr', _, hne⟩ := sortCands_mem hc
        rw [hcr] at hcr'
        injection hcr' with hcr'
        rw [hcr']
        exact hne)
      (by
        intro c hc _
        rfl)
      (by rw [someCount_all_some cands_all_some])
      hrem]
    rw [someCount_all_some cands_all_some, hlen]
    simp

/-! ## `issue_prefetches` group-iteration lemmas -/

theorem msizeBy_cons {κ ρ : Type} (σ : ρ → Nat) (p : κ × ρ) (l : List (κ × ρ)) :
    msizeBy σ (p :: l) = σ p.2 + msizeBy σ l := by
  simp [msizeBy]

theorem msizeBy_append {κ ρ : Type} (σ : ρ → Nat) (l1 l2 : List (κ × ρ)) :
    msizeBy σ (l1 ++ l2) = msizeBy σ l1 + msizeBy σ l2 := by
  simp [msizeBy]

/-- Accounting for the chronological sweep over ready groups: the issue count
only grows, every successful issue removes at least one queued request, the
add/duplicate/prune counters are untouched, `TOTAL_DELAY_CYCLES` is
untouched, group well-formedness is preserved, and the surviving group keys
are a subsequence of the original ones. -/
theorem issueGroups_spec (cc mi : Nat) (sink : DramRowOpenRequest → Bool) :
    ∀ (gs : List (Nat × ReadyGroup)) (issued : Nat) (st : SchedulerStats),
    (∀ p ∈ gs, mwf DramCoordinates.ltb p.2.ready_rows) →
    (let r := DramRowOpenScheduler.issueGroups cc mi sink gs issued st
     issued ≤ r.1 ∧
     msizeBy ReadyGroup.size r.2.1 + r.1 ≤ msizeBy ReadyGroup.size gs + issued ∧
     StatsPres r.2.2 st ∧
     r.2.2.TOTAL_DELAY_CYCLES = st.TOTAL_DELAY_CYCLES ∧
     (∀ p ∈ r.2.1, mwf DramCoordinates.ltb p.2.ready_rows) ∧
     (r.2.1.map Prod.fst).Sublist (gs.map Prod.fst)) := by
  intro gs
  induction gs with
  | nil =>
    intro issued st _
    rw [DramRowOpenScheduler.issueGroups]
    exact ⟨Nat.le_refl _, by simp, statsPres_refl st, rfl, by simp, by simp⟩
  | cons pg rest ih =>
    intro issued st hwf
    obtain ⟨c, g⟩ := pg
    rw [DramRowOpenScheduler.issueGroups]
    have hwfrest : ∀ p ∈ rest, mwf DramCoordinates.ltb p.2.ready_rows :=
      fun p hp => hwf p (List.mem_cons_of_mem _ hp)
    by_cases h1 : cc < c
    · rw [if_pos h1]
      dsimp only
      obtain ⟨ha, hb, hc', hd, he, hf⟩ := ih issued st hwfrest
      refine ⟨ha, ?_, hc', hd, ?_, ?_⟩
      · rw [msizeBy_cons, msizeBy_cons]
        omega
      · intro p hp
        rcases List.mem_cons.mp hp with h' | h'
        · rw [h']
          exact hwf (c, g) (List.mem_cons_self _ _)
        · exact he p h'
      · rw [List.map_cons, List.map_cons]
        exact hf.cons₂ _
    · rw [if_neg h1]
      have hcle : c ≤ cc := by omega
      by_cases h2 : g.isEmpty = true
      · rw [if_pos h2]
        dsimp only
        obtain ⟨ha, hb, hc', hd, he, hf⟩ := ih issued st hwfrest
        refine ⟨ha, ?_, hc', hd, he, ?_⟩
        · rw [msizeBy_cons]
          omega
        · rw [List.map_cons]
          exact hf.trans (List.sublist_cons_self _ _)
      · rw [if_neg h2]
        obtain ⟨hs1, hs2, hs3, hs4⟩ := issue_from_ready_group_spec g c cc (mi - issued) sink st
          (hwf (c, g) (List.mem_cons_self _ _))
        set r1 := DramRowOpenScheduler.issue_from_ready_group g c cc (mi - issued) sink st
          with hr1
        have hkept : msizeBy ReadyGroup.size
            (if r1.2.1.isEmpty then ([] : List (Nat × ReadyGroup))
              else [(c, r1.2.1)]) ≤ r1.2.1.size := by
          split_ifs
          · simp [msizeBy]
          · simp [msizeBy]
        have hkeptwf : ∀ p ∈ (if r1.2.1.isEmpty then ([] : List (Nat × ReadyGroup))
            else [(c, r1.2.1)]), mwf DramCoordinates.ltb p.2.ready_rows := by
          split_ifs
          · simp
          · intro p hp
            rw [List.mem_singleton.mp hp]
            exact hs2
        have hkeptkeys : ∀ (tail : List Nat),
            tail.Sublist (rest.map Prod.fst) →
            (((if r1.2.1.isEmpty then ([] : List (Nat × ReadyGroup))
              else [(c, r1.2.1)]) ).map Prod.fst ++ tail).Sublist (c :: rest.map Prod.fst) := by
          intro tail htail
          split_ifs
          · simp only [List.map_nil, List.nil_append]
            exact htail.trans (List.sublist_cons_self _ _)
          · simp only [List.map_singleton, List.singleton_append]
            exact htail.cons₂ _
        by_cases h3 : mi ≤ issued + r1.1
        · rw [if_pos h3]
          dsimp only
          refine ⟨by omega, ?_, hs3, hs4 hcle, ?_, ?_⟩
          · rw [msizeBy_append, msizeBy_cons]
            dsimp only
            omega
          · intro p hp
            rcases List.mem_append.mp hp with h' | h'
            · exact hkeptwf p h'
            · exact hwfrest p h'
          · rw [List.map_append, List.map_cons]
            exact hkeptkeys (rest.map Prod.fst) (List.Sublist.refl _)
        · rw [if_neg h3]
          dsimp only
          obtain ⟨ha, hb, hc', hd, he, hf⟩ := ih (issued + r1.1) r1.2.2 hwfrest
          refine ⟨by omega, ?_, statsPres_trans hc' hs3, by rw [hd]; exact hs4 hcle, ?_, ?_⟩
          · rw [msizeBy_append, msizeBy_cons]
            dsimp only
            omega
          · intro p hp
            rcases List.mem_append.mp hp with h' | h'
            · exact hkeptwf p h'
            · exact he p h'
          · rw [List.map_append, List.map_cons]
            exact hkeptkeys _ hf

/-- The chronological sweep with an always-false sink: zero issues, every
ready group attempted (no early break), groups survive exactly when not yet
ready or non-empty, and one `ISSUE_FAILURES` per non-empty row of every
ready group. -/
theorem issueGroups_false_sink (cc mi : Nat) (hmi : mi ≠ 0) :
    ∀ (gs : List (Nat × ReadyGroup)) (st : SchedulerStats),
    DramRowOpenScheduler.issueGroups cc mi (fun _ => false) gs 0 st =
      (0, gs.filter (fun p => decide (cc < p.1) || !p.2.ready_rows.isEmpty),
        { st with ISSUE_FAILURES := st.ISSUE_FAILURES +
          ((gs.filter fun p => !decide (cc < p.1)).map fun p =>
            (p.2.ready_rows.filter fun q => !q.2.prefetch_requests.isEmpty).length).sum }) := by
  intro gs
  induction gs with
  | nil =>
    intro st
    rw [DramRowOpenScheduler.issueGroups]
    simp
  | cons pg rest ih =>
    intro st
    obtain ⟨c, g⟩ := pg
    rw [DramRowOpenScheduler.issueGroups]
    by_cases h1 : cc < c
    · rw [if_pos h1]
      dsimp only
      rw [ih st]
      simp [List.filter_cons, h1]
    · rw [if_neg h1]
      by_cases h2 : g.isEmpty = true
      · rw [if_pos h2]
        rw [ih st]
        have hrows : g.ready_rows = [] := by
          unfold ReadyGroup.isEmpty at h2
          exact List.isEmpty_iff.mp h2
        simp [List.filter_cons, h1, hrows]
      · rw [if_neg h2]
        rw [issue_from_ready_group_false_sink g c cc (mi - 0) st (by omega)]
        dsimp only
        rw [if_neg (by omega : ¬ mi ≤ 0 + 0)]
        rw [ih _]
        have hgne : g.ready_rows.isEmpty = false := by
          unfold ReadyGroup.isEmpty at h2
          exact ne_true_eq_false h2
        simp only [List.filter_cons, h1, hgne, ReadyGroup.isEmpty, decide_False,
          Bool.false_or, Bool.not_false, Bool.not_true, if_true, if_false,
          List.map_cons, List.sum_cons, List.singleton_append, Prod.mk.injEq,
          SchedulerStats.mk.injEq, true_and, and_true, eq_self_iff_true,
          Bool.true_eq_false, Bool.false_eq_true]
        omega

/-! ## `remove_expired_ready_groups`, `issue_prefetches` and `tick` -/

theorem msizeBy_filter_split {κ ρ : Type} (σ : ρ → Nat) (pred : κ × ρ → Bool)
    (l : List (κ × ρ)) :
    msizeBy σ (l.filter pred) + msizeBy σ (l.filter fun x => !pred x) = msizeBy σ l := by
  induction l with
  | nil => simp [msizeBy]
  | cons p t ih =>
    cases hp : pred p with
    | true =>
      simp only [List.filter_cons, hp, Bool.not_true, if_true, if_false, msizeBy_cons,
        Bool.false_eq_true]
      omega
    | false =>
      simp only [List.filter_cons, hp, Bool.not_false, if_true, if_false, msizeBy_cons,
        Bool.false_eq_true]
      omega

/-- Complete characterization of the prune phase: the groups that survive are
exactly those with `now ≤ cycle + slack`, the pruned request count is the
total size of the dropped groups, and nothing else changes. -/
theorem remove_expired_spec (s : DramRowOpenScheduler) (now : Nat) :
    (let s' := s.remove_expired_ready_groups now
     s'.ready_groups = s.ready_groups.filter (fun p => !decide (p.1 + s.time_slack < now)) ∧
     s'.m_stats = { s.m_stats with PRUNED_EXPIRED := (s.m_stats.PRUNED_EXPIRED +
       msizeBy ReadyGroup.size
         (s.ready_groups.filter fun p => decide (p.1 + s.time_slack < now))) } ∧
     s'.max_queue_size = s.max_queue_size ∧ s'.time_slack = s.time_slack ∧
     s'.size + msizeBy ReadyGroup.size
       (s.ready_groups.filter fun p => decide (p.1 + s.time_slack < now)) = s.size) := by
  unfold DramRowOpenScheduler.remove_expired_ready_groups
  rw [List.partition_eq_filter_filter]
  dsimp only
  refine ⟨rfl, by rfl, rfl, rfl, ?_⟩
  rw [DramRowOpenScheduler.size_eq_msize, DramRowOpenScheduler.size_eq_msize]
  dsimp only
  simp only [Function.comp_def]
  have := msizeBy_filter_split ReadyGroup.size
    (fun p => decide (p.1 + s.time_slack < now)) s.ready_groups
  omega

theorem remove_expired_wf (s : DramRowOpenScheduler) (now : Nat) (hwf : SchedWF s) :
    SchedWF (s.remove_expired_ready_groups now) := by
  obtain ⟨hg, hr⟩ := hwf
  obtain ⟨hgroups, _, _, _, _⟩ := remove_expired_spec s now
  constructor
  · rw [hgroups]
    exact hg.sublist ((List.filter_sublist _).map Prod.fst)
  · intro p hp
    rw [hgroups] at hp
    exact hr p (List.mem_of_mem_filter hp)

/-- Accounting for the issue phase: some number `n` of requests-bearing rows
are issued; `ISSUED_SUCCESS` grows by exactly `n` while the queue shrinks by
at least `n`; no other counter except `ISSUE_FAILURES` moves. -/
theorem issue_prefetches_spec (s : DramRowOpenScheduler) (now mi : Nat)
    (sink : DramRowOpenRequest → Bool) (hwf : SchedWF s) :
    (let s' := s.issue_prefetches now mi sink
     ∃ n, s'.size + n ≤ s.size ∧
       s'.m_stats.ISSUED_SUCCESS = s.m_stats.ISSUED_SUCCESS + n ∧
       s'.m_stats.REQUESTS_ADDED = s.m_stats.REQUESTS_ADDED ∧
       s'.m_stats.DUPLICATES_DETECTED = s.m_stats.DUPLICATES_DETECTED ∧
       s'.m_stats.CONFIDENCE_UPDATES = s.m_stats.CONFIDENCE_UPDATES ∧
       s'.m_stats.DROPPED_FULL_QUEUE = s.m_stats.DROPPED_FULL_QUEUE ∧
       s'.m_stats.PRUNED_EXPIRED = s.m_stats.PRUNED_EXPIRED ∧
       s'.m_stats.TOTAL_DELAY_CYCLES = s.m_stats.TOTAL_DELAY_CYCLES ∧
       s'.max_queue_size = s.max_queue_size ∧ s'.time_slack = s.time_slack ∧
       SchedWF s') := by
  unfold DramRowOpenScheduler.issue_prefetches
  split_ifs with hguard
  · exact ⟨0, by omega, by omega, rfl, rfl, rfl, rfl, rfl, rfl, rfl, rfl, hwf⟩
  · obtain ⟨ha, hb, hc, hd, he, hf⟩ :=
      issueGroups_spec now mi sink s.ready_groups 0 s.m_stats hwf.2
    obtain ⟨hc1, hc2, hc3, hc4, hc5, hc6⟩ := hc
    refine ⟨(DramRowOpenScheduler.issueGroups now mi sink s.ready_groups 0 s.m_stats).1,
      ?_, ?_, hc1, hc2, hc3, hc4, hc5, hd, rfl, rfl, ?_, ?_⟩
    · rw [DramRowOpenScheduler.size_eq_msize, DramRowOpenScheduler.size_eq_msize]
      dsimp only
      omega
    · dsimp only
      omega
    · dsimp only
      exact hwf.1.sublist hf
    · dsimp only
      exact he

/-- One `tick`: prunes `p` requests, issues `n` row-opens (each retiring at
least one request), and touches no other counters besides `ISSUE_FAILURES`
and (vacuously, cf. C5) `TOTAL_DELAY_CYCLES`. -/
theorem tick_spec (s : DramRowOpenScheduler) (now mi : Nat)
    (sink : DramRowOpenRequest → Bool) (hwf : SchedWF s) :
    (let s' := s.tick now mi sink
     ∃ n p, s'.size + n + p ≤ s.size ∧
       s'.m_stats.ISSUED_SUCCESS = s.m_stats.ISSUED_SUCCESS + n ∧
       s'.m_stats.PRUNED_EXPIRED = s.m_stats.PRUNED_EXPIRED + p ∧
       s'.m_stats.REQUESTS_ADDED = s.m_stats.REQUESTS_ADDED ∧
       s'.m_stats.DUPLICATES_DETECTED = s.m_stats.DUPLICATES_DETECTED ∧
       s'.m_stats.CONFIDENCE_UPDATES = s.m_stats.CONFIDENCE_UPDATES ∧
       s'.m_stats.DROPPED_FULL_QUEUE = s.m_stats.DROPPED_FULL_QUEUE ∧
       s'.m_stats.TOTAL_DELAY_CYCLES = s.m_stats.TOTAL_DELAY_CYCLES ∧
       s'.max_queue_size = s.max_queue_size ∧ s'.time_slack = s.time_slack ∧
       SchedWF s') := by
  unfold DramRowOpenScheduler.tick
  obtain ⟨hg1, hst1, hq1, ht1, hsz1⟩ := remove_expired_spec s now
  have hwf1 : SchedWF (s.remove_expired_ready_groups now) := remove_expired_wf s now hwf
  obtain ⟨n, hs2, hi2, h2a, h2b, h2c, h2d, h2e, h2f, hq2, ht2, hwf2⟩ :=
    issue_prefetches_spec (s.remove_expired_ready_groups now) now mi sink hwf1
  refine ⟨n, msizeBy ReadyGroup.size
    (s.ready_groups.filter fun p => decide (p.1 + s.time_slack < now)), ?_, ?_, ?_, ?_, ?_,
    ?_, ?_, ?_, ?_, ?_, hwf2⟩
  · omega
  · rw [hi2, hst1]
  · rw [h2e, hst1]
  · rw [h2a, hst1]
  · rw [h2b, hst1]
  · rw [h2c, hst1]
  · rw [h2d, hst1]
  · rw [h2f, hst1]
  · rw [hq2, hq1]
  · rw [ht2, ht1]

/-! ## Reachable-state invariants -/

theorem add_request_config (oracle : Nat → DramCoordinates) (s : DramRowOpenScheduler)
    (req : DramRowOpenRequest) (now delay : Nat) :
    (s.add_request oracle req now delay).2.max_queue_size = s.max_queue_size ∧
    (s.add_request oracle req now delay).2.time_slack = s.time_slack := by
  unfold DramRowOpenScheduler.add_request
  split_ifs <;> exact ⟨rfl, rfl⟩

theorem reachable_wf {oracle : Nat → DramCoordinates} {s : DramRowOpenScheduler}
    (h : Reachable oracle s) : SchedWF s := by
  induction h with
  | init cap slack dw cw cmax rbs =>
    exact ⟨by simp [DramRowOpenScheduler.mk', mwf], by simp [DramRowOpenScheduler.mk']⟩
  | @add s' req now delay _ ih =>
    by_cases hfull : s'.max_queue_size ≤ s'.total_prefetch_count
    · rw [DramRowOpenScheduler.add_request_full oracle s' req now delay hfull]
      exact ih
    · exact (DramRowOpenScheduler.add_request_not_full oracle s' req now delay ih hfull).2.2
  | @tick s' now mi sink _ ih =>
    exact (tick_spec s' now mi sink ih).choose_spec.choose_spec.2.2.2.2.2.2.2.2.2.2
  | clear _ ih =>
    exact ⟨by simp [DramRowOpenScheduler.clear, mwf], by simp [DramRowOpenScheduler.clear]⟩
  | reset _ ih =>
    exact ih

/-- Every reachable state respects the capacity bound (T2). -/
theorem reachable_size_le_capacity {oracle : Nat → DramCoordinates}
    {s : DramRowOpenScheduler} (h : Reachable oracle s) : s.size ≤ s.max_queue_size := by
  induction h with
  | init cap slack dw cw cmax rbs =>
    simp [DramRowOpenScheduler.mk', DramRowOpenScheduler.size,
      DramRowOpenScheduler.total_prefetch_count]
  | @add s' req now delay hr ih =>
    have hwf := reachable_wf hr
    by_cases hfull : s'.max_queue_size ≤ s'.total_prefetch_count
    · rw [DramRowOpenScheduler.add_request_full oracle s' req now delay hfull]
      exact ih
    · obtain ⟨hsz, _, _⟩ :=
        DramRowOpenScheduler.add_request_not_full oracle s' req now delay hwf hfull
      obtain ⟨hcap, _⟩ := add_request_config oracle s' req now delay
      rw [hsz, hcap]
      have : s'.size < s'.max_queue_size := by
        unfold DramRowOpenScheduler.size
        omega
      split_ifs <;> omega
  | @tick s' now mi sink hr ih =>
    have hwf := reachable_wf hr
    obtain ⟨n, p, h1, _, _, _, _, _, _, _, hcap, _, _⟩ := tick_spec s' now mi sink hwf
    omega
  | clear hr ih =>
    simp [DramRowOpenScheduler.clear, DramRowOpenScheduler.size,
      DramRowOpenScheduler.total_prefetch_count]
  | reset hr ih =>
    exact ih

theorem reachableFromStart_reachable {oracle : Nat → DramCoordinates}
    {s : DramRowOpenScheduler} (h : ReachableFromStart oracle s) : Reachable oracle s := by
  induction h with
  | init cap slack dw cw cmax rbs => exact Reachable.init cap slack dw cw cmax rbs
  | add req now delay _ ih => exact Reachable.add req now delay ih
  | tick now mi sink _ ih => exact Reachable.tick now mi sink ih
  | clear _ ih => exact Reachable.clear ih

/-- The running-counter inequality behind T5: every added request is either
issued, pruned, or still queued, where a successful issue retires at least
one request (and possibly more, which is why equality fails — see C3). -/
theorem reachableFromStart_counters {oracle : Nat → DramCoordinates}
    {s : DramRowOpenScheduler} (h : ReachableFromStart oracle s) :
    s.m_stats.ISSUED_SUCCESS + s.m_stats.PRUNED_EXPIRED + s.size ≤
      s.m_stats.REQUESTS_ADDED := by
  induction h with
  | init cap slack dw cw cmax rbs =>
    simp [DramRowOpenScheduler.mk', DramRowOpenScheduler.size,
      DramRowOpenScheduler.total_prefetch_count]
  | @add s' req now delay hr ih =>
    have hwf := reachable_wf (reachableFromStart_reachable hr)
    by_cases hfull : s'.max_queue_size ≤ s'.total_prefetch_count
    · rw [DramRowOpenScheduler.add_request_full oracle s' req now delay hfull]
      exact ih
    · obtain ⟨hsz, hstats, _⟩ :=
        DramRowOpenScheduler.add_request_not_full oracle s' req now delay hwf hfull
      rw [hsz, hstats]
      split_ifs <;> simp <;> omega
  | @tick s' now mi sink hr ih =>
    have hwf := reachable_wf (reachableFromStart_reachable hr)
    obtain ⟨n, p, h1, h2, h3, h4, _, _, _, _, _, _, _⟩ := tick_spec s' now mi sink hwf
    omega
  | @clear s' hr ih =>
    simp only [DramRowOpenScheduler.clear] at *
    simp only [DramRowOpenScheduler.size, DramRowOpenScheduler.total_prefetch_count] at *
    simp at *
    omega

/-- `add_request` never changes `CONFIDENCE_UPDATES`: the counter is declared,
reset and printed in the source but incremented nowhere. -/
theorem add_request_confidence_updates (oracle : Nat → DramCoordinates)
    (s : DramRowOpenScheduler) (req : DramRowOpenRequest) (now delay : Nat) :
    (s.add_request oracle req now delay).2.m_stats.CONFIDENCE_UPDATES =
      s.m_stats.CONFIDENCE_UPDATES := by
  unfold DramRowOpenScheduler.add_request
  split_ifs with h
  · rfl
  · cases hlook : mlookup (now + delay) s.ready_groups with
    | some gg =>
      simp only [hlook, Option.getD_some]
      cases hlook2 : mlookup (oracle req.addr) gg.ready_rows with
      | some row =>
        simp only [ReadyGroup.add_prefetch, hlook2]
        split_ifs <;> rfl
      | none =>
        simp only [ReadyGroup.add_prefetch, hlook2]
    | none =>
      simp only [hlook, Option.getD_none]
      simp only [ReadyGroup.add_prefetch, mlookup]

/-! ## The claims -/

/-- C1: every reachable scheduler state satisfies `size() ≤ capacity()`, and an
`add_request` arriving when `size() = capacity()` — in particular any
`add_request` when `capacity() = 0` — returns false, increments only
`DROPPED_FULL_QUEUE`, and leaves the ready groups (hence every group, row
bucket and request) untouched. -/
theorem C1_capacity_invariant_and_full_drop (oracle : Nat → DramCoordinates)
    (s : DramRowOpenScheduler) (req : DramRowOpenRequest) (now delay : Nat) :
    (∀ s' : DramRowOpenScheduler, Reachable oracle s' → s'.size ≤ s'.capacity) ∧
    (s.size = s.capacity →
      s.add_request oracle req now delay = (false, { s with m_stats :=
        { s.m_stats with DROPPED_FULL_QUEUE := s.m_stats.DROPPED_FULL_QUEUE + 1 } })) ∧
    (s.capacity = 0 →
      s.add_request oracle req now delay = (false, { s with m_stats :=
        { s.m_stats with DROPPED_FULL_QUEUE := s.m_stats.DROPPED_FULL_QUEUE + 1 } })) := by
  refine ⟨fun s' h => reachable_size_le_capacity h, fun hfull => ?_, fun hzero => ?_⟩
  · refine DramRowOpenScheduler.add_request_full oracle s req now delay ?_
    unfold DramRowOpenScheduler.capacity at hfull
    unfold DramRowOpenScheduler.size at hfull
    omega
  · refine DramRowOpenScheduler.add_request_full oracle s req now delay ?_
    unfold DramRowOpenScheduler.capacity at hzero
    omega

/-- Witness for C1: a zero-capacity scheduler is at capacity, and the drop
happens exactly as stated. -/
theorem C1_witness :
    (DramRowOpenScheduler.mk' 0 5).size = (DramRowOpenScheduler.mk' 0 5).capacity ∧
    (DramRowOpenScheduler.mk' 0 5).capacity = 0 ∧
    (DramRowOpenScheduler.mk' 0 5).add_request Scenario.tOracle ⟨4096, 5, 0⟩ 0 0 =
      (false, { DramRowOpenScheduler.mk' 0 5 with m_stats :=
        { (DramRowOpenScheduler.mk' 0 5).m_stats with DROPPED_FULL_QUEUE :=
          (DramRowOpenScheduler.mk' 0 5).m_stats.DROPPED_FULL_QUEUE + 1 } }) :=
  ⟨rfl, rfl, (C1_capacity_invariant_and_full_drop Scenario.tOracle
    (DramRowOpenScheduler.mk' 0 5) ⟨4096, 5, 0⟩ 0 0).2.2 rfl⟩

/-- C2 (corrected): the rows issued from ONE ready group during a tick have
pairwise distinct banks, and with two same-bank rows in one ready group,
budget 2 and an always-true sink exactly one of them is issued — but the
usage tracker is rebuilt per ready group, so the guarantee does not extend
across the groups of one tick (see the counterexample). -/
theorem C2_bank_distinct_within_group (g : ReadyGroup) (rc cc m : Nat)
    (sink : DramRowOpenRequest → Bool) (st : SchedulerStats) :
    (DramRowOpenScheduler.issueFromReadyGroupCore g rc cc m sink st).2.1.Pairwise
      (fun a b => a.bank ≠ b.bank) ∧
    ((Scenario.oneGroupSameBank.tick 0 2 fun _ => true).m_stats.ISSUED_SUCCESS = 1 ∧
     (Scenario.oneGroupSameBank.tick 0 2 fun _ => true).size = 1) := by
  refine ⟨?_, by with_unfolding_all decide⟩
  exact (issueFromReadyGroupCore_spec g rc cc m sink st).2.1

/-- Counterexample to C2 as frozen: two ready groups (cycles 0 and 1), each
holding one bank-3 row; at `tick 1 2` with an always-true sink BOTH rows are
issued in the same tick, so a bank is targeted twice per tick. -/
theorem C2_counterexample :
    (Scenario.twoGroupsSameBank.ready_groups.map fun p =>
      p.2.ready_rows.map fun q => q.1.bank) = [[3], [3]] ∧
    (Scenario.twoGroupsSameBank.tick 1 2 fun _ => true).m_stats.ISSUED_SUCCESS = 2 ∧
    (Scenario.twoGroupsSameBank.tick 1 2 fun _ => true).size = 0 := by
  with_unfolding_all decide

/-- C3 (corrected): the running counter identity holds only as an inequality.
Every request ever accepted is issued, pruned or still queued, but one
successful issue retires a whole row bucket (possibly several requests) while
`ISSUED_SUCCESS` grows by one, so `REQUESTS_ADDED` can strictly exceed
`ISSUED_SUCCESS + PRUNED_EXPIRED + size()` (see the counterexample). -/
theorem C3_counter_inequality {oracle : Nat → DramCoordinates}
    {s : DramRowOpenScheduler} (h : ReachableFromStart oracle s) :
    s.m_stats.ISSUED_SUCCESS + s.m_stats.PRUNED_EXPIRED + s.size ≤
      s.m_stats.REQUESTS_ADDED :=
  reachableFromStart_counters h

/-- Witness for C3 on a reachable state with two adds and a tick. -/
theorem C3_witness :
    ReachableFromStart Scenario.tOracle (Scenario.oneRowTwoRequests.tick 0 1 fun _ => true) ∧
    (Scenario.oneRowTwoRequests.tick 0 1 fun _ => true).m_stats.ISSUED_SUCCESS +
      (Scenario.oneRowTwoRequests.tick 0 1 fun _ => true).m_stats.PRUNED_EXPIRED +
      (Scenario.oneRowTwoRequests.tick 0 1 fun _ => true).size ≤
      (Scenario.oneRowTwoRequests.tick 0 1 fun _ => true).m_stats.REQUESTS_ADDED := by
  have hr : ReachableFromStart Scenario.tOracle
      (Scenario.oneRowTwoRequests.tick 0 1 fun _ => true) :=
    ReachableFromStart.tick 0 1 (fun _ => true)
      (ReachableFromStart.add ⟨Scenario.mkAddr 0 0 3 1 1, 7, 0⟩ 0 0
        (ReachableFromStart.add ⟨Scenario.mkAddr 0 0 3 1 0, 5, 0⟩ 0 0
          (ReachableFromStart.init 8 5 (3/5) (2/5) 100 64)))
  exact ⟨hr, C3_counter_inequality hr⟩

/-- Counterexample to C3 as frozen: two block-distinct requests in one row
bucket; a tick with budget 1 issues the row, retiring both requests while
`ISSUED_SUCCESS` grows by one, so the claimed equality
`REQUESTS_ADDED = ISSUED_SUCCESS + PRUNED_EXPIRED + size()` fails (2 ≠ 1). -/
theorem C3_counterexample :
    (Scenario.oneRowTwoRequests.tick 0 1 fun _ => true).m_stats.REQUESTS_ADDED = 2 ∧
    (Scenario.oneRowTwoRequests.tick 0 1 fun _ => true).m_stats.ISSUED_SUCCESS = 1 ∧
    (Scenario.oneRowTwoRequests.tick 0 1 fun _ => true).m_stats.PRUNED_EXPIRED = 0 ∧
    (Scenario.oneRowTwoRequests.tick 0 1 fun _ => true).size = 0 := by
  with_unfolding_all decide

/-- C4 (corrected): a block-equal duplicate does not grow the bucket, the
first matching member has its confidence and metadata raised exactly when the
incoming confidence is strictly higher, and `DUPLICATES_DETECTED` is
incremented — but `CONFIDENCE_UPDATES` is never incremented on any
`add_request` path, contrary to the claim (the counter is dead in the
source). -/
theorem C4_duplicate_no_confidence_counter
    (row : DramRow) (req : DramRowOpenRequest) (g : ReadyGroup)
    (oracle : Nat → DramCoordinates) (dw cw : ℚ) (cm rb : Nat) (st : SchedulerStats)
    (s : DramRowOpenScheduler) (now delay : Nat)
    (h : ∃ e ∈ row.prefetch_requests, blockEq e req) :
    ((row.add_prefetch req).1 = false ∧
     (row.add_prefetch req).2.size = row.size ∧
     (∃ pre e post, row.prefetch_requests = pre ++ e :: post ∧
       (∀ x ∈ pre, ¬ blockEq x req) ∧ blockEq e req ∧
       (row.add_prefetch req).2.prefetch_requests = pre ++
         (if e.confidence < req.confidence then
           { e with confidence := req.confidence, metadata := req.metadata }
         else e) :: post)) ∧
    ((g.add_prefetch oracle req dw cw cm rb st).1 = false →
      (g.add_prefetch oracle req dw cw cm rb st).2.2 =
        { st with DUPLICATES_DETECTED := st.DUPLICATES_DETECTED + 1 }) ∧
    (s.add_request oracle req now delay).2.m_stats.CONFIDENCE_UPDATES =
      s.m_stats.CONFIDENCE_UPDATES := by
  obtain ⟨pre, e, post, hl, hpre, hdup, hres⟩ := addPfList_dup row.prefetch_requests req h
  refine ⟨⟨?_, ?_, pre, e, post, hl, hpre, hdup, ?_⟩, ?_, ?_⟩
  · simp only [DramRow.add_prefetch, hres]
  · simp only [DramRow.add_prefetch, DramRow.size, hres]
    rw [hl]
    simp
  · simp only [DramRow.add_prefetch, hres]
  · intro hfalse
    revert hfalse
    cases hlook : mlookup (oracle req.addr) g.ready_rows with
    | some row' =>
      simp only [ReadyGroup.add_prefetch, hlook]
      intro hfalse
      rw [hfalse]
      simp
    | none =>
      simp only [ReadyGroup.add_prefetch, hlook]
      intro hfalse
      exact absurd hfalse (by simp)
  · exact add_request_confidence_updates oracle s req now delay

/-- Witness for C4: a bucket holding a block-equal request of confidence 3
receives a confidence-10 duplicate; the call is a duplicate, the bucket does
not grow, and `CONFIDENCE_UPDATES` stays untouched on a full `add_request`. -/
theorem C4_witness :
    (∃ e ∈ (DramRow.mk [⟨0, 3, 0⟩] 0).prefetch_requests, blockEq e ⟨1, 10, 9⟩) ∧
    ((DramRow.mk [⟨0, 3, 0⟩] 0).add_prefetch ⟨1, 10, 9⟩).1 = false ∧
    ((DramRow.mk [⟨0, 3, 0⟩] 0).add_prefetch ⟨1, 10, 9⟩).2.size =
      (DramRow.mk [⟨0, 3, 0⟩] 0).size ∧
    ((DramRowOpenScheduler.mk' 8 5).add_request Scenario.tOracle ⟨1, 10, 9⟩ 0
      0).2.m_stats.CONFIDENCE_UPDATES =
      (DramRowOpenScheduler.mk' 8 5).m_stats.CONFIDENCE_UPDATES := by
  have h := C4_duplicate_no_confidence_counter (DramRow.mk [⟨0, 3, 0⟩] 0)
    ⟨1, 10, 9⟩ ⟨[]⟩ Scenario.tOracle (3/5) (2/5) 100 64 {} (DramRowOpenScheduler.mk' 8 5)
    0 0 ⟨⟨0, 3, 0⟩, by simp, by decide⟩
  exact ⟨⟨⟨0, 3, 0⟩, by simp, by decide⟩, h.1.1, h.1.2.1, h.2.2⟩

/-- Counterexample to C4 as frozen: a confidence raise from 3 to 10 (with
metadata 9) demonstrably occurred, `DUPLICATES_DETECTED` moved to 1, yet
`CONFIDENCE_UPDATES` is still 0. -/
theorem C4_counterexample :
    Scenario.dupAfterAdd.1 = false ∧
    (Scenario.dupAfterAdd.2.ready_groups.map fun p => p.2.ready_rows.map fun q =>
      q.2.prefetch_requests.map fun r => (r.confidence, r.metadata)) = [[[(10, 9)]]] ∧
    Scenario.dupAfterAdd.2.m_stats.DUPLICATES_DETECTED = 1 ∧
    Scenario.dupAfterAdd.2.m_stats.CONFIDENCE_UPDATES = 0 := by
  with_unfolding_all decide

/-- C5 (code bug): the spec chooses `TOTAL_DELAY_CYCLES += (now − t)`, the
observed queue residence at issue; the source instead adds
`ready_cycle > current_cycle ? ready_cycle − current_cycle : 0`, and the
issue loop only ever runs on groups with `t ≤ now`, so the increment is
always zero: `TOTAL_DELAY_CYCLES` never changes across any tick — even in a
tick that successfully issues a request five cycles after it became ready. -/
theorem C5_total_delay_never_accrues (s : DramRowOpenScheduler) (now mi : Nat)
    (sink : DramRowOpenRequest → Bool) (hwf : SchedWF s) :
    (s.tick now mi sink).m_stats.TOTAL_DELAY_CYCLES = s.m_stats.TOTAL_DELAY_CYCLES ∧
    ((Scenario.oneRequestSlack10.tick 5 4 fun _ => true).m_stats.ISSUED_SUCCESS = 1 ∧
     (Scenario.oneRequestSlack10.tick 5 4 fun _ => true).m_stats.TOTAL_DELAY_CYCLES = 0) := by
  obtain ⟨n, p, _, _, _, _, _, _, _, htd, _, _, _⟩ := tick_spec s now mi sink hwf
  exact ⟨htd, by with_unfolding_all decide⟩

/-- Witness for C5: the delay counter is unchanged by a tick that issues a
request five cycles past its ready cycle. -/
theorem C5_witness :
    SchedWF Scenario.oneRequestSlack10 ∧
    (Scenario.oneRequestSlack10.tick 5 4 fun _ => true).m_stats.TOTAL_DELAY_CYCLES =
      Scenario.oneRequestSlack10.m_stats.TOTAL_DELAY_CYCLES := by
  have hr : Reachable Scenario.tOracle Scenario.oneRequestSlack10 :=
    Reachable.add ⟨Scenario.mkAddr 0 0 3 1 0, 5, 0⟩ 0 0
      (Reachable.init 8 10 (3/5) (2/5) 100 64)
  exact ⟨reachable_wf hr,
    (C5_total_delay_never_accrues Scenario.oneRequestSlack10 5 4 (fun _ => true)
      (reachable_wf hr)).1⟩

/-- C6: a ready group with ready cycle `t` is pruned by `tick(now, …)` — with
`PRUNED_EXPIRED` growing by the total number of requests it held — exactly
when `now > t + slack`; at the boundary `now = t + slack` the group survives
and is still issuable, and a tick one cycle later prunes it. -/
theorem C6_prune_boundary (s : DramRowOpenScheduler) (now : Nat) :
    ((s.remove_expired_ready_groups now).ready_groups =
      s.ready_groups.filter (fun p => !decide (p.1 + s.time_slack < now)) ∧
     (s.remove_expired_ready_groups now).m_stats.PRUNED_EXPIRED =
      s.m_stats.PRUNED_EXPIRED + msizeBy ReadyGroup.size
        (s.ready_groups.filter fun p => decide (p.1 + s.time_slack < now))) ∧
    ((Scenario.oneRequestSlack2.tick 2 4 fun _ => true).m_stats.ISSUED_SUCCESS = 1 ∧
     (Scenario.oneRequestSlack2.tick 2 4 fun _ => true).m_stats.PRUNED_EXPIRED = 0) ∧
    ((Scenario.oneRequestSlack2.tick 3 4 fun _ => true).m_stats.ISSUED_SUCCESS = 0 ∧
     (Scenario.oneRequestSlack2.tick 3 4 fun _ => true).m_stats.PRUNED_EXPIRED = 1 ∧
     (Scenario.oneRequestSlack2.tick 3 4 fun _ => true).size = 0) := by
  obtain ⟨hg, hst, _, _, _⟩ := remove_expired_spec s now
  refine ⟨⟨hg, ?_⟩, by with_unfolding_all decide, by with_unfolding_all decide⟩
  rw [hst]

/-- C7 (corrected): the recomputed score is
`density_w * min(n / row_buffer_size, 1) + conf_w * ((Σ conf / n) / C_max)` —
the density term is clamped but the mean-confidence term is NOT, contrary to
the claim, so the score exceeds the claimed bound when some confidence
exceeds `C_max` (see the counterexample); under non-negative weights the
score is non-negative, and it depends only on the bucket members and the
configuration. -/
theorem C7_score_unclamped_formula (row : DramRow) (dw cw : ℚ) (cm rb : Nat)
    (hn : row.prefetch_requests ≠ []) :
    ((row.calculate_score dw cw cm rb).priority_score =
      dw * min ((row.prefetch_requests.length : ℚ) / (rb : ℚ)) 1 +
        cw * (((DramRow.sumConf row.prefetch_requests : ℚ) /
          (row.prefetch_requests.length : ℚ)) / (cm : ℚ))) ∧
    (0 ≤ dw → 0 ≤ cw → 0 ≤ (row.calculate_score dw cw cm rb).priority_score) ∧
    (∀ row' : DramRow, row'.prefetch_requests = row.prefetch_requests →
      (row'.calculate_score dw cw cm rb).priority_score =
        (row.calculate_score dw cw cm rb).priority_score) := by
  have hne : row.prefetch_requests.isEmpty = false := by
    cases hl : row.prefetch_requests with
    | nil => exact absurd hl hn
    | cons a t => rfl
  have hform : (row.calculate_score dw cw cm rb).priority_score =
      dw * min ((row.prefetch_requests.length : ℚ) / (rb : ℚ)) 1 +
        cw * (((DramRow.sumConf row.prefetch_requests : ℚ) /
          (row.prefetch_requests.length : ℚ)) / (cm : ℚ)) := by
    simp only [DramRow.calculate_score, hne, Bool.false_eq_true, if_false]
  refine ⟨hform, fun hdw hcw => ?_, fun row' hreq => ?_⟩
  · rw [hform]
    have h1 : (0 : ℚ) ≤ min ((row.prefetch_requests.length : ℚ) / (rb : ℚ)) 1 :=
      le_min (div_nonneg (Nat.cast_nonneg _) (Nat.cast_nonneg _)) zero_le_one
    have h2 : (0 : ℚ) ≤ ((DramRow.sumConf row.prefetch_requests : ℚ) /
        (row.prefetch_requests.length : ℚ)) / (cm : ℚ) :=
      div_nonneg (div_nonneg (Nat.cast_nonneg _) (Nat.cast_nonneg _)) (Nat.cast_nonneg _)
    exact add_nonneg (mul_nonneg hdw h1) (mul_nonneg hcw h2)
  · simp only [DramRow.calculate_score, hreq]

/-- Witness for C7 on a one-element bucket of confidence 50. -/
theorem C7_witness :
    ([⟨0, 50, 0⟩] : List DramRowOpenRequest) ≠ [] ∧ (0 : ℚ) ≤ 3/5 ∧ (0 : ℚ) ≤ 2/5 ∧
    0 ≤ (DramRow.calculate_score ⟨[⟨0, 50, 0⟩], 0⟩ (3/5) (2/5) 100 64).priority_score := by
  refine ⟨by decide, by norm_num, by norm_num, ?_⟩
  exact (C7_score_unclamped_formula ⟨[⟨0, 50, 0⟩], 0⟩ (3/5) (2/5) 100 64
    (by decide)).2.1 (by norm_num) (by norm_num)

/-- Counterexample to C7 as frozen: one request with confidence 200 under
`C_max = 100` (weights 3/5 and 2/5, row buffer 64).  The stored score is
259/320: the mean-confidence term contributes 2, not the claimed clamp to 1,
which would give 131/320 — and the scheduler stores exactly this unclamped
score for the bucket. -/
theorem C7_counterexample :
    (DramRow.calculate_score ⟨[⟨Scenario.mkAddr 0 0 3 1 0, 200, 0⟩], 0⟩
      (3/5) (2/5) 100 64).priority_score = 259/320 ∧
    specScoreClamped (3/5) (2/5) 100 64 1 200 = 131/320 ∧
    (DramRow.calculate_score ⟨[⟨Scenario.mkAddr 0 0 3 1 0, 200, 0⟩], 0⟩
      (3/5) (2/5) 100 64).priority_score ≠ specScoreClamped (3/5) (2/5) 100 64 1 200 ∧
    (Scenario.overConfident.ready_groups.map fun p =>
      p.2.ready_rows.map fun q => q.2.priority_score) = [[259/320]] := by
  refine ⟨by with_unfolding_all decide, by with_unfolding_all decide,
    by with_unfolding_all decide, by with_unfolding_all decide⟩

set_option maxRecDepth 8192 in
/-- C8 (corrected): whenever `find_best_candidate` selects a candidate, that
candidate is eligible (non-null, non-empty, bank free) and minimises the
(channel usage, rank usage) key lexicographically among the eligible
candidates, with remaining ties broken by POSITION in the score-sorted
candidate list — which is the row map's coordinate order for equal scores,
not insertion order as claimed (see the counterexample).  The channel
balancing consequence holds: four equal-score rows, two per channel, budget
2 — one row from each channel is issued. -/
theorem C8_candidate_selection (cands : List RowCandidate) (tr : DramUsageTracker) :
    (∀ j, DramRowOpenScheduler.find_best_candidate cands tr = some j →
      ∃ c, cands.get? j = some c ∧ eligB tr c = true ∧
        ∀ m d, cands.get? m = some d → eligB tr d = true → m ≠ j →
          keyLt (keyOf tr c) (keyOf tr d) ∨
            (keyOf tr c = keyOf tr d ∧ j < m)) ∧
    ((Scenario.fourRowsTwoChannels.tick 0 2 fun _ => true).m_stats.ISSUED_SUCCESS = 2 ∧
     ((Scenario.fourRowsTwoChannels.tick 0 2 fun _ => true).ready_groups.map fun p =>
       p.2.ready_rows.map fun q => (q.1.channel, q.1.bank)) = [[(0, 2), (1, 4)]]) :=
  ⟨(find_best_candidate_spec cands tr).2, by with_unfolding_all decide⟩

/-- Witness for C8: two candidates with equal keys under a fresh tracker; the
first position is selected and the selection property holds there. -/
theorem C8_witness :
    DramRowOpenScheduler.find_best_candidate pairSameKeyCands DramUsageTracker.empty =
      some 0 ∧
    (∃ c, pairSameKeyCands.get? 0 = some c ∧ eligB DramUsageTracker.empty c = true ∧
      ∀ m d, pairSameKeyCands.get? m = some d → eligB DramUsageTracker.empty d = true →
        m ≠ 0 →
        keyLt (keyOf DramUsageTracker.empty c) (keyOf DramUsageTracker.empty d) ∨
          (keyOf DramUsageTracker.empty c = keyOf DramUsageTracker.empty d ∧ 0 < m)) :=
  ⟨by with_unfolding_all decide,
   (C8_candidate_selection pairSameKeyCands DramUsageTracker.empty).1 0
     (by with_unfolding_all decide)⟩

set_option maxRecDepth 8192 in
/-- Counterexample to C8 as frozen: two equal-score rows on banks 5 and 3 of
the same channel, rank and row index, inserted bank 5 FIRST.  Insertion-order
tie-breaking would issue bank 5; the scheduler iterates the coordinate-sorted
row map, so with budget 1 it issues bank 3 and bank 5 remains queued. -/
theorem C8_counterexample :
    (Scenario.bank5ThenBank3.ready_groups.map fun p =>
      p.2.ready_rows.map fun q => (q.2.priority_score, q.1.bank)) =
        [[(47/1600, 3), (47/1600, 5)]] ∧
    (Scenario.bank5ThenBank3.tick 0 1 fun _ => true).m_stats.ISSUED_SUCCESS = 1 ∧
    ((Scenario.bank5ThenBank3.tick 0 1 fun _ => true).ready_groups.map fun p =>
      p.2.ready_rows.map fun q => q.1.bank) = [[5]] := by
  refine ⟨by with_unfolding_all decide, by with_unfolding_all decide,
    by with_unfolding_all decide⟩

/-- C9: when the sink refuses every candidate during a tick in which nothing
expires, `ISSUE_FAILURES` grows by exactly one per non-empty candidate row —
each candidate is tried once and never retried within the tick — while
`ISSUED_SUCCESS` and `size()` are unchanged, so every request stays queued;
a later tick with a truthy sink then issues the preserved request. -/
theorem C9_sink_refusal (s : DramRowOpenScheduler) (now mi : Nat) (hmi : mi ≠ 0)
    (hnoexp : ∀ p ∈ s.ready_groups, ¬ (p.1 + s.time_slack < now)) :
    ((s.tick now mi fun _ => false).m_stats.ISSUE_FAILURES =
      s.m_stats.ISSUE_FAILURES + readyRowCount s now ∧
     (s.tick now mi fun _ => false).m_stats.ISSUED_SUCCESS = s.m_stats.ISSUED_SUCCESS ∧
     (s.tick now mi fun _ => false).size = s.size) ∧
    ((Scenario.oneRequestMeta.tick 0 4 fun _ => false).m_stats.ISSUE_FAILURES = 1 ∧
     (Scenario.oneRequestMeta.tick 0 4 fun _ => false).m_stats.ISSUED_SUCCESS = 0 ∧
     (Scenario.oneRequestMeta.tick 0 4 fun _ => false).size = 1 ∧
     ((Scenario.oneRequestMeta.tick 0 4 fun _ => false).tick 1 4
       fun _ => true).m_stats.ISSUED_SUCCESS = 1 ∧
     ((Scenario.oneRequestMeta.tick 0 4 fun _ => false).tick 1 4
       fun _ => true).size = 0) := by
  refine ⟨?_, by with_unfolding_all decide⟩
  obtain ⟨hg, hst, hq, ht, hsz⟩ := remove_expired_spec s now
  have hfilter : s.ready_groups.filter (fun p => !decide (p.1 + s.time_slack < now)) =
      s.ready_groups :=
    List.filter_eq_self.mpr (fun p hp => by simpa using hnoexp p hp)
  have hfilter2 : s.ready_groups.filter (fun p => decide (p.1 + s.time_slack < now)) =
      [] := by
    rw [List.filter_eq_nil_iff]
    intro p hp
    simpa using hnoexp p hp
  have hg2 : (s.remove_expired_ready_groups now).ready_groups = s.ready_groups := by
    rw [hg, hfilter]
  have hsz2 : (s.remove_expired_ready_groups now).size = s.size := by
    rw [hfilter2] at hsz
    simpa [msizeBy] using hsz
  unfold DramRowOpenScheduler.tick
  unfold DramRowOpenScheduler.issue_prefetches
  by_cases hemp : (s.remove_expired_ready_groups now).ready_groups.isEmpty = true
  · have hnil : s.ready_groups = [] := by
      rw [← hg2]
      exact List.isEmpty_iff.mp hemp
    have hrrc : readyRowCount s now = 0 := by
      unfold readyRowCount
      rw [hnil]
      rfl
    simp only [hemp, Bool.true_or, if_true]
    refine ⟨?_, ?_, hsz2⟩
    · rw [hst, hrrc]
      simp
    · rw [hst]
  · have hempf : (s.remove_expired_ready_groups now).ready_groups.isEmpty = false :=
      ne_true_eq_false hemp
    simp only [hempf, Bool.false_or]
    rw [if_neg (by simpa using hmi)]
    dsimp only
    rw [issueGroups_false_sink now mi hmi]
    refine ⟨?_, ?_, ?_⟩
    · dsimp only
      rw [hst, hg2]
      rfl
    · dsimp only
      rw [hst]
      simp
    · rw [DramRowOpenScheduler.size_eq_msize]
      dsimp only
      rw [hg2]
      have hsplit := msizeBy_filter_split ReadyGroup.size
        (fun p => decide (now < p.1) || !p.2.ready_rows.isEmpty) s.ready_groups
      have hzero : msizeBy ReadyGroup.size
          (s.ready_groups.filter fun p =>
            !(decide (now < p.1) || !p.2.ready_rows.isEmpty)) = 0 := by
        unfold msizeBy
        apply List.sum_eq_zero
        intro x hx
        obtain ⟨p, hp, hpx⟩ := List.mem_map.mp hx
        have hmem := List.mem_filter.mp hp
        by_cases hie : p.2.ready_rows.isEmpty = true
        · have hrows : p.2.ready_rows = [] := List.isEmpty_iff.mp hie
          rw [← hpx]
          simp [ReadyGroup.size, hrows]
        · exfalso
          have hx2 := hmem.2
          rw [ne_true_eq_false hie] at hx2
          simp at hx2
      have hs : msizeBy ReadyGroup.size s.ready_groups = s.size :=
        (DramRowOpenScheduler.size_eq_msize s).symm
      omega

/-- Witness for C9 on a one-request scheduler refused at tick 0. -/
theorem C9_witness :
    (4 : Nat) ≠ 0 ∧
    (∀ p ∈ Scenario.oneRequestMeta.ready_groups,
      ¬ (p.1 + Scenario.oneRequestMeta.time_slack < 0)) ∧
    (Scenario.oneRequestMeta.tick 0 4 fun _ => false).m_stats.ISSUED_SUCCESS =
      Scenario.oneRequestMeta.m_stats.ISSUED_SUCCESS ∧
    (Scenario.oneRequestMeta.tick 0 4 fun _ => false).size =
      Scenario.oneRequestMeta.size := by
  have h := C9_sink_refusal Scenario.oneRequestMeta 0 4 (by decide)
    (by with_unfolding_all decide)
  exact ⟨by decide, by with_unfolding_all decide, h.1.2.1, h.1.2.2⟩

/-- C10: duplicate coalescing is scoped to one ready cycle.  Two accepted
`add_request` calls whose requests are block-equal but whose ready cycles
`now + delay` differ (each landing in a fresh ready group, with room for
both) are BOTH accepted as new requests: `REQUESTS_ADDED` grows by 2,
`size()` grows by 2, and `DUPLICATES_DETECTED` does not move — the same
cache block is queued once per distinct ready cycle. -/
theorem C10_distinct_ready_cycles (oracle : Nat → DramCoordinates)
    (s : DramRowOpenScheduler) (req1 req2 : DramRowOpenRequest)
    (now1 delay1 now2 delay2 : Nat) (hbe : blockEq req1 req2)
    (hcap : s.size + 2 ≤ s.capacity) (hne : now1 + delay1 ≠ now2 + delay2)
    (h1 : mlookup (now1 + delay1) s.ready_groups = none)
    (h2 : mlookup (now2 + delay2) s.ready_groups = none) :
    (s.add_request oracle req1 now1 delay1).1 = true ∧
    ((s.add_request oracle req1 now1 delay1).2.add_request oracle req2 now2 delay2).1 =
      true ∧
    ((s.add_request oracle req1 now1 delay1).2.add_request oracle req2 now2
      delay2).2.size = s.size + 2 ∧
    ((s.add_request oracle req1 now1 delay1).2.add_request oracle req2 now2
      delay2).2.m_stats.REQUESTS_ADDED = s.m_stats.REQUESTS_ADDED + 2 ∧
    ((s.add_request oracle req1 now1 delay1).2.add_request oracle req2 now2
      delay2).2.m_stats.DUPLICATES_DETECTED = s.m_stats.DUPLICATES_DETECTED := by
  have hnotfull1 : ¬ s.max_queue_size ≤ s.total_prefetch_count := by
    unfold DramRowOpenScheduler.capacity at hcap
    unfold DramRowOpenScheduler.size at hcap
    unfold DramRowOpenScheduler.total_prefetch_count at hcap ⊢
    omega
  have hr1 : s.add_request oracle req1 now1 delay1 = (true, { s with
      ready_groups := mupsert natLtb (now1 + delay1)
        (ReadyGroup.mk (mupsert DramCoordinates.ltb (oracle req1.addr)
          ((DramRow.mk [req1] 0).calculate_score s.density_weight s.confidence_weight
            s.max_confidence s.row_buffer_size) [])) s.ready_groups,
      m_stats := { s.m_stats with
        REQUESTS_ADDED := s.m_stats.REQUESTS_ADDED + 1 } }) := by
    simp only [DramRowOpenScheduler.add_request, if_neg hnotfull1, h1, Option.getD_none,
      ReadyGroup.add_prefetch, mlookup]
  have hc1 : (s.add_request oracle req1 now1 delay1).1 = true := by rw [hr1]
  have hA : (s.add_request oracle req1 now1 delay1).2.ready_groups =
      mupsert natLtb (now1 + delay1)
        (ReadyGroup.mk (mupsert DramCoordinates.ltb (oracle req1.addr)
          ((DramRow.mk [req1] 0).calculate_score s.density_weight s.confidence_weight
            s.max_confidence s.row_buffer_size) [])) s.ready_groups := by
    rw [hr1]
  have hB : (s.add_request oracle req1 now1 delay1).2.m_stats =
      { s.m_stats with REQUESTS_ADDED := s.m_stats.REQUESTS_ADDED + 1 } := by
    rw [hr1]
  have hsize1 : (s.add_request oracle req1 now1 delay1).2.total_prefetch_count =
      s.total_prefetch_count + 1 := by
    show msizeBy ReadyGroup.size (s.add_request oracle req1 now1 delay1).2.ready_groups =
      msizeBy ReadyGroup.size s.ready_groups + 1
    rw [hA]
    exact @msize_mupsert_none _ _ _ natLtb ReadyGroup.size _ _ _ h1
  have hC : (s.add_request oracle req1 now1 delay1).2.max_queue_size =
      s.max_queue_size := by
    rw [hr1]
  have hnotfull2 : ¬ (s.add_request oracle req1 now1 delay1).2.max_queue_size ≤
      (s.add_request oracle req1 now1 delay1).2.total_prefetch_count := by
    rw [hC, hsize1]
    unfold DramRowOpenScheduler.capacity at hcap
    unfold DramRowOpenScheduler.size at hcap
    unfold DramRowOpenScheduler.total_prefetch_count at hcap ⊢
    omega
  have hlook2 : mlookup (now2 + delay2)
      (s.add_request oracle req1 now1 delay1).2.ready_groups = none := by
    rw [hA]
    rw [mlookup_mupsert_ne (fun h => hne h.symm)]
    exact h2
  refine ⟨hc1, ?_⟩
  generalize hgen : (s.add_request oracle req1 now1 delay1).2 = s1 at hB hsize1 hnotfull2 hlook2 ⊢
  have hr2 : s1.add_request oracle req2 now2 delay2 = (true, { s1 with
      ready_groups := mupsert natLtb (now2 + delay2)
        (ReadyGroup.mk (mupsert DramCoordinates.ltb (oracle req2.addr)
          ((DramRow.mk [req2] 0).calculate_score s1.density_weight s1.confidence_weight
            s1.max_confidence s1.row_buffer_size) [])) s1.ready_groups,
      m_stats := { s1.m_stats with
        REQUESTS_ADDED := s1.m_stats.REQUESTS_ADDED + 1 } }) := by
    simp only [DramRowOpenScheduler.add_request, if_neg hnotfull2, hlook2,
      Option.getD_none, ReadyGroup.add_prefetch, mlookup]
  refine ⟨by rw [hr2], ?_, ?_, ?_⟩
  · rw [hr2, DramRowOpenScheduler.size_eq_msize]
    dsimp only
    rw [@msize_mupsert_none _ _ _ natLtb ReadyGroup.size _ _ _ hlook2]
    have h5 : msizeBy ReadyGroup.size s1.ready_groups = s.size + 1 := hsize1
    rw [h5]
    show s.size + 1 + 1 = s.size + 2
    omega
  · rw [hr2]
    dsimp only
    rw [hB]
  · rw [hr2]
    dsimp only
    rw [hB]

/-- Witness for C10: the same cache block queued at ready cycles 0 and 1 of a
fresh capacity-8 scheduler; both adds are accepted as new requests. -/
theorem C10_witness :
    blockEq ⟨Scenario.mkAddr 0 0 3 1 0, 5, 0⟩ ⟨Scenario.mkAddr 0 0 3 1 0, 7, 1⟩ ∧
    (DramRowOpenScheduler.mk' 8 5).size + 2 ≤ (DramRowOpenScheduler.mk' 8 5).capacity ∧
    (0 + 0 : Nat) ≠ 0 + 1 ∧
    ((((DramRowOpenScheduler.mk' 8 5).add_request Scenario.tOracle
        ⟨Scenario.mkAddr 0 0 3 1 0, 5, 0⟩ 0 0).2.add_request Scenario.tOracle
        ⟨Scenario.mkAddr 0 0 3 1 0, 7, 1⟩ 0 1).2.m_stats.REQUESTS_ADDED =
      (DramRowOpenScheduler.mk' 8 5).m_stats.REQUESTS_ADDED + 2) ∧
    ((((DramRowOpenScheduler.mk' 8 5).add_request Scenario.tOracle
        ⟨Scenario.mkAddr 0 0 3 1 0, 5, 0⟩ 0 0).2.add_request Scenario.tOracle
        ⟨Scenario.mkAddr 0 0 3 1 0, 7, 1⟩ 0 1).2.size =
      (DramRowOpenScheduler.mk' 8 5).size + 2) := by
  have h := C10_distinct_ready_cycles Scenario.tOracle (DramRowOpenScheduler.mk' 8 5)
    ⟨Scenario.mkAddr 0 0 3 1 0, 5, 0⟩ ⟨Scenario.mkAddr 0 0 3 1 0, 7, 1⟩ 0 0 0 1
    (by decide) (by decide) (by decide) rfl rfl
  exact ⟨by decide, by decide, by decide, h.2.2.2.1, h.2.2.1⟩

end DramOpen
